import Mathlib

/-!
Verification development for the autolocalhost reconciliation engine.

The Rust sources are shallowly embedded here:
- `src/utils/port_mapping.rs` (port-mapping parser),
- `src/hosts/hosts_file_manager.rs` (hostname-map writer),
- `src/docker/mod.rs` (reconciliation engine, debounce, event handling),
- `src/ssl/certificate_generator.rs` (certificate issuer).

Strings are modelled as `List Char` (Rust `&str` character sequences,
restricted to the ASCII fragment relevant to the properties under study);
machine integers (`u16`) are modelled as `Nat` with explicit range checks
mirroring the parse/overflow behaviour of Rust; fallible code returns
`Except`/`Option`; the filesystem and external collaborators (Docker,
nginx, rcgen crypto) are modelled as explicit state or oracle parameters.
-/

deriving instance DecidableEq for Except

namespace Autolocalhost

/-! ## Generic list/string utilities used by the embedding -/

/-- Rust `char::is_whitespace`, restricted to the ASCII whitespace characters. -/
def isWs (c : Char) : Bool :=
  c = ' ' || c = '\t' || c = '\n' || c = '\r' || c = '\x0b' || c = '\x0c'

/-- Rust `str::trim` on a character list: drop whitespace from both ends. -/
def trim (l : List Char) : List Char :=
  ((l.dropWhile isWs).reverse.dropWhile isWs).reverse

/-- Rust `str::split(sep)` on a character list: split at every occurrence of
`sep`; splitting the empty list yields one empty piece, like Rust. -/
def splitChar (sep : Char) : List Char → List (List Char)
  | [] => [[]]
  | c :: t =>
    if c = sep then [] :: splitChar sep t
    else
      match splitChar sep t with
      | [] => [[c]]
      | h :: r => (c :: h) :: r

/-- Boolean sublist-prefix test (structural, decidable). -/
def isPre : List Char → List Char → Bool
  | [], _ => true
  | _ :: _, [] => false
  | a :: as, b :: bs => a = b && isPre as bs

/-- Index of the first occurrence of `pat` as a contiguous sublist of
`content`, scanning left to right (the leftmost match start). -/
def findFrom (content pat : List Char) : Option Nat :=
  match content with
  | [] => if isPre pat [] then some 0 else none
  | _ :: t =>
    if isPre pat content then some 0
    else (findFrom t pat).map (· + 1)

/-- Length of the maximal run of newline characters at the head of the list. -/
def leadNl : List Char → Nat
  | '\n' :: t => leadNl t + 1
  | _ => 0

/-- Length of the maximal run of newline characters at the end of the list. -/
def trailNl (l : List Char) : Nat := leadNl l.reverse

/-! ## Port-mapping parser (`src/utils/port_mapping.rs`) -/

/-- Decimal accumulation over a digit list, as Rust `from_str_radix(10)`
accumulates; returns `none` on the first non-digit character. -/
def decValAux : List Char → Nat → Option Nat
  | [], acc => some acc
  | c :: t, acc => if c.isDigit then decValAux t (acc * 10 + (c.toNat - 48)) else none

/-- Decimal value of an (assumed) digit list. -/
def decVal (cs : List Char) : Nat :=
  cs.foldl (fun a c => a * 10 + (c.toNat - 48)) 0

/-- Strip the optional leading `+` sign accepted by Rust integer parsing. -/
def stripPlus (cs : List Char) : List Char :=
  match cs with
  | '+' :: t => t
  | _ => cs

/-- Rust `str::parse::<u16>()`: an optional leading `+`, then one or more
decimal digits; values above `u16::MAX` overflow and fail. -/
def rustParseU16 (cs : List Char) : Option Nat :=
  let body := stripPlus cs
  if body = [] then none
  else
    match decValAux body 0 with
    | none => none
    | some n => if n ≤ 65535 then some n else none

/-- A parsed port mapping (`PortMapping` in `port_mapping.rs`). -/
structure PortMapping where
  external : Nat
  internal : Nat
deriving Repr, DecidableEq

/-- `PortMapping::validate_port`: trim, parse as `u16`, reject `0`. -/
def validate_port (port_str : List Char) : Except (List Char) Nat :=
  match rustParseU16 (trim port_str) with
  | none => .error ("Invalid port number: ".data ++ port_str)
  | some port =>
    if port < 1 then
      .error ("Port number out of range (1-65535): ".data ++ (Nat.repr port).data)
    else
      .ok port

/-- `PortMapping::parse_port_mapping`: a single token, either `N` or `E:I`. -/
def parse_port_mapping (mapping_str : List Char) : Except (List Char) PortMapping :=
  let trimmed := trim mapping_str
  if trimmed = [] then
    .error "Empty port mapping".data
  else if trimmed.contains ':' then
    match splitChar ':' trimmed with
    | [a, b] =>
      match validate_port a with
      | .error e => .error e
      | .ok external =>
        match validate_port b with
        | .error e => .error e
        | .ok internal => .ok ⟨external, internal⟩
    | _ => .error ("Invalid port mapping format: ".data ++ trimmed)
  else
    match validate_port trimmed with
    | .ok port => .ok ⟨port, port⟩
    | .error e => .error e

/-- `PortMapping::parse_port_mappings` inner loop over comma-separated tokens. -/
def parseMappingsList : List (List Char) → Except (List Char) (List PortMapping)
  | [] => .ok []
  | p :: rest =>
    match parse_port_mapping p with
    | .ok m =>
      match parseMappingsList rest with
      | .ok ms => .ok (m :: ms)
      | .error e => .error e
    | .error e =>
      .error ("Failed to parse port mapping '".data ++ p ++ "': ".data ++ e)

/-- `PortMapping::parse_port_mappings`: the empty string yields the empty
list; otherwise every comma-separated token must parse. -/
def parse_port_mappings (mappings_str : List Char) : Except (List Char) (List PortMapping) :=
  if mappings_str = [] then .ok []
  else parseMappingsList (splitChar ',' mappings_str)

/-! ## Hostname-map writer (`src/hosts/hosts_file_manager.rs`)

The manager's block-search regex is `\n*<begin>[\s\S]*?<end>\n*` over the
literal markers; its leftmost-first match is embedded directly: the match
starts at the first occurrence of the begin marker, extended left over the
adjacent newline run, and ends at the first following end marker, extended
right over the adjacent newline run. -/

/-- The begin marker (`block_start` in `HostsFileManager::new`). -/
def block_start : List Char :=
  "# BEGIN MANAGED BLOCK - DO NOT EDIT MANUALLY # kz.byte0.autolocalhost".data

/-- The end marker (`block_end` in `HostsFileManager::new`). -/
def block_end : List Char :=
  "# END MANAGED BLOCK - DO NOT EDIT MANUALLY # kz.byte0.autolocalhost".data

/-- Rust `str::split_terminator('\n')`: like split, but a trailing empty
piece is dropped. -/
def splitTermNl (content : List Char) : List (List Char) :=
  let ps := splitChar '\n' content
  if ps.getLast? = some [] then ps.dropLast else ps

/-- Strip one trailing carriage return, as Rust `lines()` does per line. -/
def stripCr (l : List Char) : List Char :=
  if l.getLast? = some '\r' then l.dropLast else l

/-- Rust `str::lines()`. -/
def rustLines (content : List Char) : List (List Char) :=
  (splitTermNl content).map stripCr

/-- A line whose `trim()` is empty (`line.trim().is_empty()` in
`normalize_content`). -/
def isBlankLine (l : List Char) : Bool :=
  trim l = []

/-- The `prev_was_empty` loop of `normalize_content`: collapse runs of
blank lines to a single blank line. -/
def dedupBlanks : List (List Char) → Bool → List (List Char)
  | [], _ => []
  | l :: t, prevEmpty =>
    if isBlankLine l && prevEmpty then dedupBlanks t prevEmpty
    else l :: dedupBlanks t (isBlankLine l)

/-- The trailing-blank-line removal loop of `normalize_content`. -/
def dropTrailingBlanks (ls : List (List Char)) : List (List Char) :=
  (ls.reverse.dropWhile isBlankLine).reverse

/-- `HostsFileManager::normalize_content`. -/
def normalize_content (content : List Char) : List Char :=
  let ls := dropTrailingBlanks (dedupBlanks (rustLines content) false)
  if ls = [] then [] else (List.intercalate ['\n'] ls) ++ ['\n']

/-- `HostsFileManager::create_managed_block`. -/
def create_managed_block (domains : List (List Char)) : List Char :=
  block_start ++ ['\n'] ++
    (domains.map (fun d => "127.0.0.1 ".data ++ d ++ ['\n'])).flatten ++ block_end

/-- Leftmost-first match of the block regex `\n*<begin>[\s\S]*?<end>\n*`:
returns the half-open character range it covers, or `none`. -/
def blockMatch (content : List Char) : Option (Nat × Nat) :=
  match findFrom content block_start with
  | none => none
  | some p =>
    match findFrom (content.drop (p + block_start.length)) block_end with
    | none => none
    | some r =>
      let e0 := p + block_start.length + r + block_end.length
      some (p - trailNl (content.take p), e0 + leadNl (content.drop e0))

/-- `HostsFileManager::update_block_in_content`. -/
def update_block_in_content (content : List Char) (domains : List (List Char)) : List Char :=
  let new_block := if domains.isEmpty then [] else create_managed_block domains
  match blockMatch content with
  | some (s, e) =>
    normalize_content (content.take s ++ new_block ++ content.drop e)
  | none =>
    if new_block.isEmpty then normalize_content content
    else
      let nc := normalize_content content
      if nc = [] then new_block
      else if nc.getLast? = some '\n' then nc ++ ['\n'] ++ new_block
      else nc ++ ['\n', '\n'] ++ new_block

/-- The content-level behaviour of `HostsFileManager::update_managed_block`:
the literal hostname `localhost` is filtered out of the domain list before
the block update. -/
def update_managed_block_content (content : List Char) (domains : List (List Char)) : List Char :=
  update_block_in_content content (domains.filter (fun d => d ≠ "localhost".data))

/-! ## Reconciliation engine (`src/docker/mod.rs`)

`ContainerInfo` extraction, the authoritative active map, the debounce
state, the event/tick loops of `monitor_containers`, and the
`update_configuration` reconciliation pass.  Extraction
(`ContainerInfo::from_container`, a Docker API call) is an oracle
parameter `extract`; a `none` result models an extraction error.  The
effects of the pass on the outside world are an explicit `SysState`:
hosts-file text (updated with the real `update_block_in_content`), the
last rendered proxy configuration and proxy-container ports, and the list
of certificate-issuance invocations in order. -/

/-- `ContainerInfo` (`src/docker/container_info.rs`). -/
structure ContainerInfo where
  id : List Char
  name : List Char
  is_running : Bool
  domain : List Char
  ports : List PortMapping
  ssl_ports : List PortMapping
deriving Repr, DecidableEq

/-- Observable collaborator state touched by a reconciliation pass. -/
structure SysState where
  hosts : List Char
  nginxConf : Option (List ContainerInfo)
  nginxPorts : Option (List Nat)
  certCalls : List (List Char)
deriving Repr, DecidableEq

/-- `HashSet::insert` on the external-port set, represented as a
duplicate-free list in first-insertion order. -/
def insertNew (l : List Nat) (x : Nat) : List Nat :=
  if x ∈ l then l else l ++ [x]

/-- Outcome of the per-container loop of `update_configuration`: an abort
error if a duplicate domain was hit, plus the domain list, external-port
set and certificate-issuance invocations accumulated so far. -/
structure LoopOut where
  err : Option (List Char)
  doms : List (List Char)
  eps : List Nat
  certs : List (List Char)
deriving Repr, DecidableEq

/-- The `for container in &running_containers` loop of
`update_configuration`: duplicate-domain check, domain collection,
external-port collection over plain and TLS mappings, and one certificate
issuance per TLS mapping of a container with a non-empty domain. -/
def passLoop : List ContainerInfo → List (List Char) → List Nat → List (List Char) → LoopOut
  | [], doms, eps, certs => ⟨none, doms, eps, certs⟩
  | c :: rest, doms, eps, certs =>
    if doms.contains c.domain then
      ⟨some ("Duplicate domain name in container ".data ++ c.name), doms, eps, certs⟩
    else
      let doms2 := if c.domain ≠ [] then doms ++ [c.domain] else doms
      let eps2 := (c.ports.map (·.external)).foldl insertNew eps
      let eps3 := (c.ssl_ports.map (·.external)).foldl insertNew eps2
      let certs2 := certs ++ (if c.domain ≠ [] then c.ssl_ports.map (fun _ => c.domain) else [])
      passLoop rest doms2 eps3 certs2

/-- `update_configuration` over a snapshot (the map's values in iteration
order): filter to running containers, run the collection loop, and on
success update hosts file, proxy config and proxy container; on a
duplicate-domain abort only the certificate invocations already made
remain. -/
def update_configuration (snapshot : List ContainerInfo) (st : SysState) :
    SysState × Option (List Char) :=
  let rc := snapshot.filter (·.is_running)
  let o := passLoop rc [] [] []
  match o.err with
  | some e => ({ st with certCalls := st.certCalls ++ o.certs }, some e)
  | none =>
    let hosts2 := update_managed_block_content st.hosts o.doms
    ({ hosts := hosts2, nginxConf := some rc, nginxPorts := some o.eps, certCalls := st.certCalls ++ o.certs }, none)

/-- `DebounceState` (`src/docker/mod.rs`), with `Instant` as a `Nat`
second count. -/
structure DebounceState where
  last_update_request : Option Nat
  pending_update : Bool
deriving Repr, DecidableEq

/-- The engine's container map (`HashMap<String, ContainerInfo>`),
represented as an association list in insertion order. -/
abbrev ActiveMap := List (List Char × ContainerInfo)

/-- `HashMap::contains_key`. -/
def mapContains (m : ActiveMap) (k : List Char) : Bool :=
  (m.lookup k).isSome

/-- `HashMap::insert` of a key known to be absent. -/
def mapInsert (m : ActiveMap) (k : List Char) (v : ContainerInfo) : ActiveMap :=
  m ++ [(k, v)]

/-- `HashMap::remove`. -/
def mapRemove (m : ActiveMap) (k : List Char) : ActiveMap :=
  m.filter (fun p => p.1 ≠ k)

/-- Full engine state: the event loop's own map, the shared copy read by
the debounce task, the debounce state, and the collaborator state. -/
structure EngineState where
  active : ActiveMap
  shared : ActiveMap
  deb : DebounceState
  sys : SysState
deriving Repr, DecidableEq

/-- The four subscribed Docker lifecycle actions. -/
inductive DockerAction
  | start | stop | die | destroy
deriving Repr, DecidableEq

/-- One event from the filtered Docker event stream. -/
structure TimedEvent where
  time : Nat
  id : List Char
  action : DockerAction
deriving Repr, DecidableEq

/-- Result of handling one event: the new state, whether descriptor
extraction was attempted, and whether a debounced update was scheduled. -/
structure EvResult where
  st : EngineState
  extracted : Bool
  scheduled : Bool
deriving Repr, DecidableEq

/-- The event `match` of `monitor_containers`: `start` inserts an
extracted descriptor only for untracked ids; `stop`/`die`/`destroy`
removes only tracked ids; on an actual change the shared map is
overwritten and a debounced update is recorded. -/
def handle_event (extract : List Char → Option ContainerInfo) (st : EngineState)
    (e : TimedEvent) : EvResult :=
  match e.action with
  | .start =>
    if mapContains st.active e.id then ⟨st, false, false⟩
    else
      match extract e.id with
      | some info =>
        let active2 := mapInsert st.active e.id info
        ⟨{ st with
            active := active2
            shared := active2
            deb := ⟨some e.time, true⟩ }, true, true⟩
      | none => ⟨st, true, false⟩
  | _ =>
    if mapContains st.active e.id then
      let active2 := mapRemove st.active e.id
      ⟨{ st with
          active := active2
          shared := active2
          deb := ⟨some e.time, true⟩ }, false, true⟩
    else ⟨st, false, false⟩

/-- A reconciliation pass fired by the debounce task: when it fired, on
which snapshot, and the pass result (`none` = success). -/
structure PassRecord where
  time : Nat
  snapshot : ActiveMap
  err : Option (List Char)
deriving Repr, DecidableEq

/-- One iteration of the spawned debounce task at time `t`: if an update
is pending and at least `DEBOUNCE_DURATION_SECS` (5) have elapsed since
the last request, clear the debounce state, snapshot the shared map and
run `update_configuration`; an error result is logged and discarded. -/
def handle_tick (st : EngineState) (t : Nat) : EngineState × Option PassRecord :=
  if st.deb.pending_update then
    match st.deb.last_update_request with
    | some last =>
      if 5 ≤ t - last then
        let snap := st.shared
        let r := update_configuration (snap.map (·.2)) st.sys
        ({ st with deb := ⟨none, false⟩, sys := r.1 }, some ⟨t, snap, r.2⟩)
      else (st, none)
    | none => (st, none)
  else (st, none)

/-- One item of an execution trace: an incoming event or a 1-second
debounce-task wakeup at the given time. -/
inductive TraceItem
  | ev (e : TimedEvent)
  | tick (t : Nat)
deriving Repr, DecidableEq

/-- Interleaved execution of the event-listener loop and the debounce
task over a trace, collecting the fired reconciliation passes in order. -/
def processTrace (extract : List Char → Option ContainerInfo) :
    EngineState → List TraceItem → EngineState × List PassRecord
  | st, [] => (st, [])
  | st, .ev e :: rest => processTrace extract (handle_event extract st e).st rest
  | st, .tick t :: rest =>
    let s2 := handle_tick st t
    let s3 := processTrace extract s2.1 rest
    (s3.1, s2.2.toList ++ s3.2)

/-- The startup inventory scan of `monitor_containers`: extract a
descriptor for each listed container id, skipping ids whose extraction
fails. -/
def buildScan (extract : List Char → Option ContainerInfo) (ids : List (List Char)) : ActiveMap :=
  ids.foldl (fun m i =>
    match extract i with
    | some info => mapInsert m i info
    | none => m) []

/-- `monitor_containers`: scan, run the unconditional startup pass — whose
error propagates via `?` and terminates the function — then process the
event/tick trace. -/
def monitor_containers (extract : List Char → Option ContainerInfo)
    (scanIds : List (List Char)) (st0 : SysState) (trace : List TraceItem) :
    Except (List Char) (EngineState × List PassRecord) :=
  let active := buildScan extract scanIds
  let r := update_configuration (active.map (·.2)) st0
  match r.2 with
  | some e => .error e
  | none => .ok (processTrace extract ⟨active, active, ⟨none, false⟩, r.1⟩ trace)

/-! ## Certificate issuer (`src/ssl/certificate_generator.rs`)

The filesystem is an explicit store of files and directories; the rcgen
cryptographic operations (key generation, signing, PEM serialization) are
an external collaborator modelled by an opaque oracle.  Reading a CA key
file that exists is modelled as succeeding, matching the path taken when
`has_ca_files` has just returned true. -/

/-- A filesystem: file contents by path, plus the set of directories. -/
structure FileSystem where
  files : List (List Char × List Char)
  dirs : List (List Char)
deriving Repr, DecidableEq

/-- `fs::metadata(path).is_ok()` for a file. -/
def fsHasFile (fs : FileSystem) (p : List Char) : Bool :=
  (fs.files.lookup p).isSome

/-- `fs::read_to_string`. -/
def fsRead (fs : FileSystem) (p : List Char) : Option (List Char) :=
  fs.files.lookup p

/-- `fs::write`: create or replace a file. -/
def fsWrite (fs : FileSystem) (p c : List Char) : FileSystem :=
  { fs with files := (fs.files.filter (fun q => q.1 ≠ p)) ++ [(p, c)] }

/-- `fs::create_dir_all`: create the directory if absent. -/
def create_dir_all (fs : FileSystem) (d : List Char) : FileSystem :=
  if fs.dirs.contains d then fs else { fs with dirs := fs.dirs ++ [d] }

/-- `CertificateGenerator` (domain plus its two directories). -/
structure CertificateGenerator where
  domain : List Char
  certs_dir : List Char
  ca_dir : List Char
deriving Repr, DecidableEq

/-- Path of the persisted CA certificate (`localCA.crt`). -/
def caCertPath (g : CertificateGenerator) : List Char :=
  g.ca_dir ++ "/localCA.crt".data

/-- Path of the persisted CA key (`localCA.key`). -/
def caKeyPath (g : CertificateGenerator) : List Char :=
  g.ca_dir ++ "/localCA.key".data

/-- Path of the leaf certificate (`<domain>.crt`). -/
def domainCertPath (g : CertificateGenerator) : List Char :=
  g.certs_dir ++ ['/'] ++ g.domain ++ ".crt".data

/-- Path of the leaf key (`<domain>.key`). -/
def domainKeyPath (g : CertificateGenerator) : List Char :=
  g.certs_dir ++ ['/'] ++ g.domain ++ ".key".data

/-- Path of the chain file (`<domain>.fullchain.crt`). -/
def fullchainPath (g : CertificateGenerator) : List Char :=
  g.certs_dir ++ ['/'] ++ g.domain ++ ".fullchain.crt".data

/-- `CertificateGenerator::has_ca_files`. -/
def has_ca_files (g : CertificateGenerator) (fs : FileSystem) : Bool :=
  fsHasFile fs (caCertPath g) && fsHasFile fs (caKeyPath g)

/-- `CertificateGenerator::has_domain_certs`. -/
def has_domain_certs (g : CertificateGenerator) (fs : FileSystem) : Bool :=
  fsHasFile fs (domainCertPath g) && fsHasFile fs (domainKeyPath g) &&
    fsHasFile fs (fullchainPath g)

/-- Opaque rcgen cryptography: fresh CA material, CA certificate rebuilt
from a persisted key, and per-domain leaf material. -/
structure CryptoOracle where
  freshCaCertPem : List Char
  freshCaKeyPem : List Char
  caCertPemFromKey : List Char → List Char
  leafCertPem : List Char → List Char → List Char
  leafKeyPem : List Char → List Char

/-- `CertificateGenerator::generate_certificates`: ensure both
directories exist, return success immediately if the three leaf
artifacts exist, otherwise load or create-and-persist the CA and write
the three leaf artifacts. -/
def generate_certificates (o : CryptoOracle) (g : CertificateGenerator)
    (fs0 : FileSystem) : FileSystem × Bool :=
  let fs := create_dir_all (create_dir_all fs0 g.certs_dir) g.ca_dir
  if has_domain_certs g fs then (fs, true)
  else
    let caPair : FileSystem × List Char :=
      if has_ca_files g fs then
        match fsRead fs (caKeyPath g) with
        | some k => (fs, o.caCertPemFromKey k)
        | none => (fs, o.caCertPemFromKey [])
      else
        let fs2 := fsWrite fs (caCertPath g) o.freshCaCertPem
        let fs3 := fsWrite fs2 (caKeyPath g) o.freshCaKeyPem
        (fs3, o.freshCaCertPem)
    let cert := o.leafCertPem g.domain caPair.2
    let key := o.leafKeyPem g.domain
    let chain := cert ++ ['\n'] ++ caPair.2
    let fs4 := fsWrite caPair.1 (domainCertPath g) cert
    let fs5 := fsWrite fs4 (domainKeyPath g) key
    let fs6 := fsWrite fs5 (fullchainPath g) chain
    (fs6, true)

/-! ## Derived observers and concrete fixtures -/

/-- Error observer for `Except` results. -/
def isErr {α : Type} : Except (List Char) α → Bool
  | .error _ => true
  | .ok _ => false

/-- The hostname list a reconciliation pass computes and hands to the
Hostname-Map Writer (the `domains` vector of `update_configuration`). -/
def pass_domains (snapshot : List ContainerInfo) : List (List Char) :=
  (passLoop (snapshot.filter (·.is_running)) [] [] []).doms

/-- The external-port collection a reconciliation pass hands to the proxy
lifecycle manager (the `external_ports` set of `update_configuration`). -/
def pass_ports (snapshot : List ContainerInfo) : List Nat :=
  (passLoop (snapshot.filter (·.is_running)) [] [] []).eps

/-- Lexicographic order on character lists (the natural "sorted" order
for hostname lists), as a computable comparator. -/
def lexLE : List Char → List Char → Bool
  | [], _ => true
  | _ :: _, [] => false
  | a :: as, b :: bs => if a < b then true else if a = b then lexLE as bs else false

/-- Whether a component token passes `validate_port`: it parses as `u16`
after trimming and is at least 1. -/
def validPortTok (cs : List Char) : Bool :=
  match rustParseU16 (trim cs) with
  | some n => decide (1 ≤ n)
  | none => false

/-- The list is non-empty and its first character is not whitespace. -/
def headNotWs (l : List Char) : Bool :=
  match l.head? with
  | some c => !(isWs c)
  | none => false

/-- The list is non-empty and its last character is not whitespace. -/
def lastNotWs (l : List Char) : Bool :=
  match l.getLast? with
  | some c => !(isWs c)
  | none => false

/-- The two error shapes `validate_port` produces for a failing token:
the parse error names the raw token, the range error names the parsed
value (which can only be 0). -/
def portErrMsgFor (tok m : List Char) : Prop :=
  m = "Invalid port number: ".data ++ tok ∨
    m = "Port number out of range (1-65535): 0".data

/-- The events carried by a trace, in order. -/
def eventsOf (trace : List TraceItem) : List TimedEvent :=
  trace.filterMap fun it =>
    match it with
    | .ev e => some e
    | .tick _ => none

/-- The map entries a burst of extracted start events inserts. -/
def entriesOf (bs : List (TimedEvent × ContainerInfo)) : ActiveMap :=
  bs.map fun p => (p.1.id, p.2)

/-- Every tick in the item is at time at most `n` (events are ignored). -/
def tickLEB (n : Nat) : TraceItem → Bool
  | .tick t => decide (t ≤ n)
  | .ev _ => true

/-- Every tick in the item is strictly before time `n` (events ignored). -/
def tickLTB (n : Nat) : TraceItem → Bool
  | .tick t => decide (t < n)
  | .ev _ => true

/-- Whether the trace is non-empty and its final item is an event. -/
def lastIsEvent (trace : List TraceItem) : Bool :=
  match trace.getLast? with
  | some (.ev _) => true
  | _ => false

/-- Fixture: a running TLS container with domain `d`. -/
def dupA : ContainerInfo := ⟨"idA".data, "a".data, true, "d".data, [], [⟨443, 443⟩]⟩

/-- Fixture: a second running TLS container with the same domain `d`. -/
def dupB : ContainerInfo := ⟨"idB".data, "b".data, true, "d".data, [], [⟨8443, 443⟩]⟩

/-- Fixture: a running container with domain `b` and one plain port. -/
def runB : ContainerInfo := ⟨"1".data, "n1".data, true, "b".data, [⟨80, 8080⟩], []⟩

/-- Fixture: a running container with domain `a` and two plain ports. -/
def runA : ContainerInfo := ⟨"2".data, "n2".data, true, "a".data, [⟨80, 3000⟩, ⟨81, 81⟩], []⟩

/-- Fixture: an initial collaborator state. -/
def sysFix : SysState := ⟨"127.0.0.1 localhost\n".data, none, none, []⟩

/-- Fixture: an extraction oracle knowing containers `1` and `2`. -/
def extractFix : List Char → Option ContainerInfo := fun i =>
  if i = "1".data then some runB else if i = "2".data then some runA else none

/-- Fixture: an extraction oracle knowing the two duplicate-domain containers. -/
def extractDup : List Char → Option ContainerInfo := fun i =>
  if i = "idA".data then some dupA else if i = "idB".data then some dupB else none

/-- Fixture: start event for container `1` at time 0. -/
def burstEv1 : TimedEvent := ⟨0, "1".data, .start⟩

/-- Fixture: start event for container `2` at time 2. -/
def burstEv2 : TimedEvent := ⟨2, "2".data, .start⟩

/-- Fixture: a two-event burst with an interleaved 1-second tick. -/
def burstPre : List TraceItem := [.ev burstEv1, .tick 1, .ev burstEv2]

/-- Fixture: the silent 1-second ticks after the burst. -/
def burstPost : List TraceItem := [.tick 3, .tick 4, .tick 5, .tick 6, .tick 7, .tick 8]

/-- Fixture: engine state with container `1` tracked. -/
def trackedSt : EngineState :=
  ⟨[("1".data, runB)], [("1".data, runB)], ⟨none, false⟩, sysFix⟩

/-- Fixture: a certificate generator for domain `d`. -/
def certFix : CertificateGenerator := ⟨"d".data, "certs".data, "ca".data⟩

/-- Fixture: an opaque crypto oracle. -/
def oracleFix : CryptoOracle :=
  ⟨"CAC".data, "CAK".data, fun k => "CA-".data ++ k,
    fun d c => "L-".data ++ d ++ c, fun d => "K-".data ++ d⟩

/-- Fixture: a filesystem holding the three leaf artifacts for `d` and the
certs directory, but no CA directory. -/
def fsLeafOnly : FileSystem :=
  ⟨[(domainCertPath certFix, "x".data), (domainKeyPath certFix, "y".data),
    (fullchainPath certFix, "z".data)], ["certs".data]⟩

/-- Fixture: a hosts file with a managed block between two ordinary lines. -/
def c4content : List Char :=
  "a\n".data ++ create_managed_block ["d".data] ++ "\nb\n".data

/-- Fixture: the result of one block update of `"x\n"` with domain list `["d"]`. -/
def hostsOnce : List Char := update_block_in_content "x\n".data ["d".data]

/-! ## General lemmas about the embedded primitives -/

theorem splitChar_ne_nil (sep : Char) (s : List Char) : splitChar sep s ≠ [] := by
  induction s with
  | nil => simp [splitChar]
  | cons c t ih =>
    simp only [splitChar]
    split
    · simp
    · cases h : splitChar sep t with
      | nil => simp
      | cons a r => simp

theorem mem_of_mem_splitChar {sep : Char} {s p : List Char} {c : Char}
    (hp : p ∈ splitChar sep s) (hc : c ∈ p) : c ∈ s := by
  induction s generalizing p with
  | nil =>
    simp [splitChar] at hp
    subst hp
    simp at hc
  | cons a t ih =>
    simp only [splitChar] at hp
    split at hp
    · rcases List.mem_cons.mp hp with h | h
      · subst h; simp at hc
      · exact List.mem_cons_of_mem _ (ih h hc)
    · cases hsp : splitChar sep t with
      | nil => exact absurd hsp (splitChar_ne_nil sep t)
      | cons q r =>
        rw [hsp] at hp
        rcases List.mem_cons.mp hp with h | h
        · subst h
          rcases List.mem_cons.mp hc with h' | h'
          · simp [h']
          · refine List.mem_cons_of_mem _ (ih ?_ h')
            rw [hsp]; exact List.mem_cons_self q r
        · refine List.mem_cons_of_mem _ (ih ?_ hc)
          rw [hsp]; exact List.mem_cons_of_mem q h

theorem trim_eq_nil_of_all_ws {l : List Char} (h : ∀ c ∈ l, isWs c) : trim l = [] := by
  have h1 : l.dropWhile isWs = [] := List.dropWhile_eq_nil_iff.mpr h
  simp [trim, h1]

theorem parse_port_mapping_blank {p : List Char} (h : trim p = []) :
    parse_port_mapping p = .error "Empty port mapping".data := by
  simp [parse_port_mapping, h]

theorem parseMappingsList_err {ps : List (List Char)} {p : List Char}
    (hp : p ∈ ps) (he : isErr (parse_port_mapping p) = true) :
    isErr (parseMappingsList ps) = true := by
  induction ps with
  | nil => simp at hp
  | cons q rest ih =>
    rcases List.mem_cons.mp hp with h | h
    · subst h
      cases hq : parse_port_mapping p with
      | error e => simp [parseMappingsList, hq, isErr]
      | ok m => rw [hq] at he; simp [isErr] at he
    · cases hq : parse_port_mapping q with
      | error e => simp [parseMappingsList, hq, isErr]
      | ok m =>
        have := ih h
        cases hr : parseMappingsList rest with
        | error e => simp [parseMappingsList, hq, hr, isErr]
        | ok ms => rw [hr] at this; simp [isErr] at this

/-! ## Claim C10 -/

/-- Claim C10: parsing a comma-separated mappings list returns the empty
sequence only for the exactly-empty input string; every non-empty
whitespace-only input, and every input containing a blank token (such as
a trailing comma), makes the whole call fail rather than skip the token
or return a partial list. -/
theorem C10_empty_list_only_for_empty_string :
    parse_port_mappings [] = .ok [] ∧
    (∀ s : List Char, s ≠ [] → (∀ c ∈ s, isWs c) →
      isErr (parse_port_mappings s) = true) ∧
    (∀ s : List Char, s ≠ [] → (∃ p ∈ splitChar ',' s, trim p = []) →
      isErr (parse_port_mappings s) = true) := by
  have key : ∀ s : List Char, s ≠ [] → (∃ p ∈ splitChar ',' s, trim p = []) →
      isErr (parse_port_mappings s) = true := by
    intro s hs ⟨p, hp, htr⟩
    have herr : isErr (parse_port_mapping p) = true := by
      rw [parse_port_mapping_blank htr]; rfl
    simp only [parse_port_mappings, if_neg hs]
    exact parseMappingsList_err hp herr
  refine ⟨rfl, ?_, key⟩
  intro s hs hws
  refine key s hs ?_
  refine ⟨(splitChar ',' s).head (splitChar_ne_nil ',' s), List.head_mem _, ?_⟩
  refine trim_eq_nil_of_all_ws ?_
  intro c hc
  exact hws c (mem_of_mem_splitChar (List.head_mem _) hc)

/-- Witness for C10 at concrete inputs: the whitespace-only string `" "`
and the trailing-comma string `"80,"` both fail. -/
theorem C10_empty_list_only_for_empty_string_witness :
    isErr (parse_port_mappings " ".data) = true ∧
    isErr (parse_port_mappings "80,".data) = true := by
  constructor
  · exact C10_empty_list_only_for_empty_string.2.1 " ".data (by decide) (by decide)
  · exact C10_empty_list_only_for_empty_string.2.2 "80,".data (by decide)
      ⟨"".data, by decide, by decide⟩

/-! ## Claim C8 -/

/-- Claim C8: event handling is idempotent on the active set — a `start`
event for an already-tracked id leaves the whole engine state unchanged,
attempts no re-extraction and schedules no update; a `stop`/`die`/`destroy`
event for an untracked id is likewise a complete no-op rather than an
error. -/
theorem C8_event_handling_idempotent (extract : List Char → Option ContainerInfo)
    (st : EngineState) (e : TimedEvent) :
    (e.action = DockerAction.start → mapContains st.active e.id = true →
      handle_event extract st e = ⟨st, false, false⟩) ∧
    ((e.action = DockerAction.stop ∨ e.action = DockerAction.die ∨
        e.action = DockerAction.destroy) →
      mapContains st.active e.id = false →
      handle_event extract st e = ⟨st, false, false⟩) := by
  constructor
  · intro ha hc
    simp [handle_event, ha, hc]
  · intro ha hc
    rcases ha with h | h | h <;> simp [handle_event, h, hc]

/-- Witness for C8: concrete tracked-start and untracked-stop events
against the fixture state. -/
theorem C8_event_handling_idempotent_witness :
    handle_event extractFix trackedSt ⟨5, "1".data, DockerAction.start⟩ =
      ⟨trackedSt, false, false⟩ ∧
    handle_event extractFix trackedSt ⟨5, "9".data, DockerAction.stop⟩ =
      ⟨trackedSt, false, false⟩ := by
  constructor
  · exact (C8_event_handling_idempotent extractFix trackedSt
      ⟨5, "1".data, DockerAction.start⟩).1 rfl (by decide)
  · exact (C8_event_handling_idempotent extractFix trackedSt
      ⟨5, "9".data, DockerAction.stop⟩).2 (Or.inl rfl) (by decide)

/-! ## Claim C9 -/

/-- Counterexample for C9: with the three leaf artifacts present but the
CA directory absent, issuance succeeds yet creates a directory — the
claim's "no directory is created" is violated, because both
`create_dir_all` calls run before the short-circuit check. -/
theorem C9_counterexample :
    has_domain_certs certFix fsLeafOnly = true ∧
    (generate_certificates oracleFix certFix fsLeafOnly).2 = true ∧
    (generate_certificates oracleFix certFix fsLeafOnly).1.dirs ≠ fsLeafOnly.dirs := by
  refine ⟨by decide, by decide, by decide⟩

/-- Claim C9 (amended): when the three leaf artifacts exist, issuance
returns success without touching any file; the only filesystem effect is
ensuring the certs/CA directories exist, and when both directories
already exist the filesystem is completely unchanged. -/
theorem C9_short_circuit_no_writes (o : CryptoOracle) (g : CertificateGenerator)
    (fs : FileSystem) (h : has_domain_certs g fs = true) :
    (generate_certificates o g fs).2 = true ∧
    (generate_certificates o g fs).1.files = fs.files ∧
    (generate_certificates o g fs).1.dirs =
      (create_dir_all (create_dir_all fs g.certs_dir) g.ca_dir).dirs ∧
    (g.certs_dir ∈ fs.dirs → g.ca_dir ∈ fs.dirs →
      generate_certificates o g fs = (fs, true)) := by
  have hfiles : ∀ (fs' : FileSystem) (d : List Char),
      (create_dir_all fs' d).files = fs'.files := by
    intro fs' d
    unfold create_dir_all
    split <;> rfl
  have hsame : ∀ (fs' : FileSystem),
      fs'.files = fs.files → has_domain_certs g fs' = true := by
    intro fs' hf
    unfold has_domain_certs fsHasFile at h ⊢
    rw [hf]
    exact h
  have h2 : has_domain_certs g (create_dir_all (create_dir_all fs g.certs_dir) g.ca_dir) = true := by
    refine hsame _ ?_
    rw [hfiles, hfiles]
  have hgen : generate_certificates o g fs =
      (create_dir_all (create_dir_all fs g.certs_dir) g.ca_dir, true) := by
    unfold generate_certificates
    rw [if_pos h2]
  refine ⟨by rw [hgen], by rw [hgen]; rw [hfiles, hfiles], by rw [hgen], ?_⟩
  intro hc hca
  have e1 : create_dir_all fs g.certs_dir = fs := by
    unfold create_dir_all
    rw [if_pos ?_]
    simpa using hc
  have e2 : create_dir_all (create_dir_all fs g.certs_dir) g.ca_dir = fs := by
    rw [e1]
    unfold create_dir_all
    rw [if_pos ?_]
    simpa using hca
  rw [hgen, e2]

/-- Witness for C9 at a concrete filesystem where both directories and the
three leaf artifacts exist: issuance is a complete no-op. -/
theorem C9_short_circuit_no_writes_witness :
    generate_certificates oracleFix certFix
      ⟨fsLeafOnly.files, ["certs".data, "ca".data]⟩ =
      (⟨fsLeafOnly.files, ["certs".data, "ca".data]⟩, true) := by
  exact (C9_short_circuit_no_writes oracleFix certFix
    ⟨fsLeafOnly.files, ["certs".data, "ca".data]⟩ (by decide)).2.2.2
    (by decide) (by decide)

/-! ## Lemmas about the reconciliation-pass loop -/

theorem passLoop_cons_dup {c : ContainerInfo} {rest : List ContainerInfo}
    {doms : List (List Char)} {eps : List Nat} {certs : List (List Char)}
    (h : doms.contains c.domain = true) :
    passLoop (c :: rest) doms eps certs =
      ⟨some ("Duplicate domain name in container ".data ++ c.name), doms, eps, certs⟩ := by
  have e : passLoop (c :: rest) doms eps certs =
      if doms.contains c.domain then
        ⟨some ("Duplicate domain name in container ".data ++ c.name), doms, eps, certs⟩
      else
        passLoop rest (if c.domain ≠ [] then doms ++ [c.domain] else doms)
          ((c.ssl_ports.map (·.external)).foldl insertNew
            ((c.ports.map (·.external)).foldl insertNew eps))
          (certs ++ (if c.domain ≠ [] then c.ssl_ports.map (fun _ => c.domain) else [])) := rfl
  rw [e, h]
  simp

theorem passLoop_cons_not_dup {c : ContainerInfo} {rest : List ContainerInfo}
    {doms : List (List Char)} {eps : List Nat} {certs : List (List Char)}
    (h : doms.contains c.domain = false) :
    passLoop (c :: rest) doms eps certs =
      passLoop rest (if c.domain ≠ [] then doms ++ [c.domain] else doms)
        ((c.ssl_ports.map (·.external)).foldl insertNew
          ((c.ports.map (·.external)).foldl insertNew eps))
        (certs ++ (if c.domain ≠ [] then c.ssl_ports.map (fun _ => c.domain) else [])) := by
  have e : passLoop (c :: rest) doms eps certs =
      if doms.contains c.domain then
        ⟨some ("Duplicate domain name in container ".data ++ c.name), doms, eps, certs⟩
      else
        passLoop rest (if c.domain ≠ [] then doms ++ [c.domain] else doms)
          ((c.ssl_ports.map (·.external)).foldl insertNew
            ((c.ports.map (·.external)).foldl insertNew eps))
          (certs ++ (if c.domain ≠ [] then c.ssl_ports.map (fun _ => c.domain) else [])) := rfl
  rw [e, h]
  simp

theorem passLoop_ok_doms : ∀ (cs : List ContainerInfo) (doms : List (List Char))
    (eps : List Nat) (certs : List (List Char)),
    (passLoop cs doms eps certs).err = none →
    (passLoop cs doms eps certs).doms =
      doms ++ (cs.map (·.domain)).filter (fun d => d ≠ []) := by
  intro cs
  induction cs with
  | nil => intro doms eps certs _; simp [passLoop]
  | cons c rest ih =>
    intro doms eps certs h
    cases hdup : doms.contains c.domain with
    | true => rw [passLoop_cons_dup hdup] at h; simp at h
    | false =>
      rw [passLoop_cons_not_dup hdup] at h ⊢
      rw [ih _ _ _ h]
      by_cases hd : c.domain = []
      · simp [hd]
      · simp [hd]

theorem passLoop_ok_nodup : ∀ (cs : List ContainerInfo) (doms : List (List Char))
    (eps : List Nat) (certs : List (List Char)),
    (passLoop cs doms eps certs).err = none →
    doms.Nodup → (∀ d ∈ doms, d ≠ []) →
    (passLoop cs doms eps certs).doms.Nodup := by
  intro cs
  induction cs with
  | nil => intro doms eps certs _ hn _; simpa [passLoop] using hn
  | cons c rest ih =>
    intro doms eps certs h hn hne
    cases hdup : doms.contains c.domain with
    | true => rw [passLoop_cons_dup hdup] at h; simp at h
    | false =>
      rw [passLoop_cons_not_dup hdup] at h ⊢
      have hmem : c.domain ∉ doms := by simpa using hdup
      by_cases hd : c.domain = []
      · rw [if_neg (by simp [hd])] at h ⊢
        exact ih _ _ _ h hn hne
      · rw [if_pos (by simp [hd])] at h ⊢
        refine ih _ _ _ h ?_ ?_
        · refine List.Nodup.append hn (List.nodup_singleton _) ?_
          intro d hdm hds
          rw [List.mem_singleton] at hds
          exact hmem (hds ▸ hdm)
        · intro d hdm
          rcases List.mem_append.mp hdm with h1 | h1
          · exact hne d h1
          · rw [List.mem_singleton] at h1
            exact h1 ▸ hd

theorem passLoop_err_shape : ∀ (cs : List ContainerInfo) (doms : List (List Char))
    (eps : List Nat) (certs : List (List Char)) (e : List Char),
    (passLoop cs doms eps certs).err = some e →
    ∃ c ∈ cs, e = "Duplicate domain name in container ".data ++ c.name := by
  intro cs
  induction cs with
  | nil => intro doms eps certs e h; simp [passLoop] at h
  | cons c rest ih =>
    intro doms eps certs e h
    cases hdup : doms.contains c.domain with
    | true =>
      rw [passLoop_cons_dup hdup] at h
      simp only [Option.some.injEq] at h
      exact ⟨c, List.mem_cons_self c rest, h.symm⟩
    | false =>
      rw [passLoop_cons_not_dup hdup] at h
      obtain ⟨c', hc', he⟩ := ih _ _ _ _ h
      exact ⟨c', List.mem_cons_of_mem c hc', he⟩

theorem insertNew_mem {l : List Nat} {x y : Nat} :
    y ∈ insertNew l x ↔ y ∈ l ∨ y = x := by
  unfold insertNew
  split
  · rename_i hx
    constructor
    · exact fun h => Or.inl h
    · rintro (h | h)
      · exact h
      · exact h ▸ hx
  · simp

theorem insertNew_nodup {l : List Nat} {x : Nat} (h : l.Nodup) :
    (insertNew l x).Nodup := by
  unfold insertNew
  split
  · exact h
  · rename_i hx
    refine List.Nodup.append h (List.nodup_singleton _) ?_
    intro d hdm hds
    rw [List.mem_singleton] at hds
    exact hx (hds ▸ hdm)

theorem foldl_insertNew_mem : ∀ (xs l : List Nat) (y : Nat),
    y ∈ xs.foldl insertNew l ↔ y ∈ l ∨ y ∈ xs := by
  intro xs
  induction xs with
  | nil => intro l y; simp
  | cons x t ih =>
    intro l y
    simp only [List.foldl_cons]
    rw [ih]
    rw [insertNew_mem]
    constructor
    · rintro ((h | h) | h)
      · exact Or.inl h
      · exact Or.inr (h ▸ List.mem_cons_self x t)
      · exact Or.inr (List.mem_cons_of_mem x h)
    · rintro (h | h)
      · exact Or.inl (Or.inl h)
      · rcases List.mem_cons.mp h with h1 | h1
        · exact Or.inl (Or.inr h1)
        · exact Or.inr h1

theorem foldl_insertNew_nodup : ∀ (xs l : List Nat), l.Nodup →
    (xs.foldl insertNew l).Nodup := by
  intro xs
  induction xs with
  | nil => intro l h; simpa using h
  | cons x t ih =>
    intro l h
    simp only [List.foldl_cons]
    exact ih _ (insertNew_nodup h)

theorem passLoop_eps_nodup : ∀ (cs : List ContainerInfo) (doms : List (List Char))
    (eps : List Nat) (certs : List (List Char)),
    eps.Nodup → (passLoop cs doms eps certs).eps.Nodup := by
  intro cs
  induction cs with
  | nil => intro doms eps certs h; simpa [passLoop] using h
  | cons c rest ih =>
    intro doms eps certs h
    cases hdup : doms.contains c.domain with
    | true => rw [passLoop_cons_dup hdup]; simpa using h
    | false =>
      rw [passLoop_cons_not_dup hdup]
      exact ih _ _ _ (foldl_insertNew_nodup _ _ (foldl_insertNew_nodup _ _ h))

theorem passLoop_eps_mem : ∀ (cs : List ContainerInfo) (doms : List (List Char))
    (eps : List Nat) (certs : List (List Char)) (y : Nat),
    (passLoop cs doms eps certs).err = none →
    (y ∈ (passLoop cs doms eps certs).eps ↔
      y ∈ eps ∨ ∃ c ∈ cs, (y ∈ c.ports.map (·.external) ∨ y ∈ c.ssl_ports.map (·.external))) := by
  intro cs
  induction cs with
  | nil => intro doms eps certs y _; simp [passLoop]
  | cons c rest ih =>
    intro doms eps certs y h
    cases hdup : doms.contains c.domain with
    | true => rw [passLoop_cons_dup hdup] at h; simp at h
    | false =>
      rw [passLoop_cons_not_dup hdup] at h ⊢
      rw [ih _ _ _ _ h]
      rw [foldl_insertNew_mem, foldl_insertNew_mem]
      constructor
      · rintro (((h1 | h1) | h1) | ⟨c', hc', h1⟩)
        · exact Or.inl h1
        · exact Or.inr ⟨c, List.mem_cons_self c rest, Or.inl h1⟩
        · exact Or.inr ⟨c, List.mem_cons_self c rest, Or.inr h1⟩
        · exact Or.inr ⟨c', List.mem_cons_of_mem c hc', h1⟩
      · rintro (h1 | ⟨c', hc', h1⟩)
        · exact Or.inl (Or.inl (Or.inl h1))
        · rcases List.mem_cons.mp hc' with h2 | h2
          · subst h2
            rcases h1 with h1 | h1
            · exact Or.inl (Or.inl (Or.inr h1))
            · exact Or.inl (Or.inr h1)
          · exact Or.inr ⟨c', h2, h1⟩

/-! ## Claim C1 -/

/-- Counterexample for C1: two running containers share the non-empty
domain `d` and both carry a TLS port.  The pass aborts naming container
`b`, but a certificate issuance for `d` has already been invoked before
the abort — the claim's "no collaborator is invoked and no certificate
issuance occurs before the abort" is false. -/
theorem C1_counterexample :
    (update_configuration [dupA, dupB] sysFix).2 =
      some "Duplicate domain name in container b".data ∧
    (update_configuration [dupA, dupB] sysFix).1.certCalls ≠ sysFix.certCalls := by
  refine ⟨by decide, by decide⟩

/-- Claim C1 (amended): a snapshot whose running descriptors repeat a
non-empty domain makes the pass abort with an error naming the offending
container, and the hosts-file, proxy-config and proxy-container state are
left untouched; certificate issuance, however, may already have run for
descriptors processed before the duplicate was detected. -/
theorem C1_duplicate_domain_aborts (snapshot : List ContainerInfo) (st : SysState)
    (hdup : ¬ (((snapshot.filter (·.is_running)).map (·.domain)).filter
      (fun d => d ≠ [])).Nodup) :
    (∃ c ∈ snapshot.filter (·.is_running),
      (update_configuration snapshot st).2 =
        some ("Duplicate domain name in container ".data ++ c.name)) ∧
    (update_configuration snapshot st).1.hosts = st.hosts ∧
    (update_configuration snapshot st).1.nginxConf = st.nginxConf ∧
    (update_configuration snapshot st).1.nginxPorts = st.nginxPorts := by
  cases herr : (passLoop (snapshot.filter (·.is_running)) [] [] []).err with
  | none =>
    exfalso
    apply hdup
    have hd := passLoop_ok_doms _ [] [] [] herr
    have hn := passLoop_ok_nodup _ [] [] [] herr (by simp) (by simp)
    rw [hd] at hn
    simpa using hn
  | some e =>
    obtain ⟨c, hc, he⟩ := passLoop_err_shape _ [] [] [] e herr
    refine ⟨⟨c, hc, ?_⟩, ?_, ?_, ?_⟩ <;>
      simp [update_configuration, herr, he]

/-- Witness for C1 at the concrete duplicate snapshot. -/
theorem C1_duplicate_domain_aborts_witness :
    (∃ c ∈ [dupA, dupB].filter (·.is_running),
      (update_configuration [dupA, dupB] sysFix).2 =
        some ("Duplicate domain name in container ".data ++ c.name)) ∧
    (update_configuration [dupA, dupB] sysFix).1.hosts = sysFix.hosts ∧
    (update_configuration [dupA, dupB] sysFix).1.nginxConf = sysFix.nginxConf ∧
    (update_configuration [dupA, dupB] sysFix).1.nginxPorts = sysFix.nginxPorts :=
  C1_duplicate_domain_aborts [dupA, dupB] sysFix (by decide)

/-! ## Claim C5 -/

/-- Counterexample for C5: a successful pass over two running containers
whose snapshot order is `b` before `a` hands the Hostname-Map Writer the
list `["b", "a"]`, which is not sorted — the hostname list preserves
snapshot iteration order and is never sorted by the code. -/
theorem C5_counterexample :
    (update_configuration [runB, runA] sysFix).2 = none ∧
    pass_domains [runB, runA] = ["b".data, "a".data] ∧
    ¬ List.Sorted (fun x y : List Char => lexLE x y = true)
      (pass_domains [runB, runA]) := by
  refine ⟨by decide, by decide, ?_⟩
  intro hs
  have hd : pass_domains [runB, runA] = ["b".data, "a".data] := by decide
  rw [hd] at hs
  have := (List.sorted_cons.mp hs).1 "a".data (by simp)
  revert this
  decide

/-- Claim C5 (amended): on a successful pass the hostname list handed to
the Hostname-Map Writer is the snapshot-order list of non-empty running
domains — duplicate-free but not sorted — and the external-port
collection is the duplicate-free union of the external components of all
plain and TLS mappings of the running descriptors. -/
theorem C5_pass_outputs (snapshot : List ContainerInfo) (st : SysState)
    (hok : (update_configuration snapshot st).2 = none) :
    pass_domains snapshot =
      ((snapshot.filter (·.is_running)).map (·.domain)).filter (fun d => d ≠ []) ∧
    (pass_domains snapshot).Nodup ∧
    (update_configuration snapshot st).1.hosts =
      update_managed_block_content st.hosts (pass_domains snapshot) ∧
    (update_configuration snapshot st).1.nginxPorts = some (pass_ports snapshot) ∧
    (pass_ports snapshot).Nodup ∧
    (∀ p, p ∈ pass_ports snapshot ↔
      ∃ c ∈ snapshot.filter (·.is_running),
        (p ∈ c.ports.map (·.external) ∨ p ∈ c.ssl_ports.map (·.external))) := by
  cases herr : (passLoop (snapshot.filter (·.is_running)) [] [] []).err with
  | some e =>
    exfalso
    rw [show (update_configuration snapshot st).2 =
      some e by simp [update_configuration, herr]] at hok
    exact Option.noConfusion hok
  | none =>
    refine ⟨?_, ?_, ?_, ?_, ?_, ?_⟩
    · simpa [pass_domains] using passLoop_ok_doms _ [] [] [] herr
    · exact passLoop_ok_nodup _ [] [] [] herr (by simp) (by simp)
    · simp [update_configuration, herr, pass_domains]
    · simp [update_configuration, herr, pass_ports]
    · exact passLoop_eps_nodup _ [] [] [] (by simp)
    · intro p
      have := passLoop_eps_mem (snapshot.filter (·.is_running)) [] [] [] p herr
      simpa [pass_ports] using this

/-- Witness for C5 at a concrete successful snapshot. -/
theorem C5_pass_outputs_witness :
    pass_domains [runB, runA] =
      (([runB, runA].filter (·.is_running)).map (·.domain)).filter (fun d => d ≠ []) ∧
    (pass_ports [runB, runA]).Nodup :=
  ⟨(C5_pass_outputs [runB, runA] sysFix (by decide)).1,
   (C5_pass_outputs [runB, runA] sysFix (by decide)).2.2.2.2.1⟩

/-! ## Claim C6 -/

/-- Claim C6 (violated by the code): hostname-map update is not
idempotent.  Starting from the file `"x\n"` and domain list `["d"]`, the
first application appends the managed block after a separating blank
line; the second application's block regex `\n*<begin>...<end>\n*` also
consumes the newlines before the begin marker, so the replacement splices
the preceding line onto the marker (`"x# BEGIN ..."`) and the second
output is not byte-identical to the first. -/
theorem C6_idempotence_fails :
    hostsOnce = "x\n\n".data ++ create_managed_block ["d".data] ∧
    update_block_in_content hostsOnce ["d".data] =
      "x".data ++ create_managed_block ["d".data] ++ "\n".data ∧
    update_block_in_content hostsOnce ["d".data] ≠ hostsOnce := by
  refine ⟨by decide, by decide, by decide⟩

/-! ## Claim C3 -/

theorem processTrace_append (extract : List Char → Option ContainerInfo)
    (t1 t2 : List TraceItem) : ∀ st : EngineState,
    processTrace extract st (t1 ++ t2) =
      ((processTrace extract (processTrace extract st t1).1 t2).1,
       (processTrace extract st t1).2 ++
         (processTrace extract (processTrace extract st t1).1 t2).2) := by
  induction t1 with
  | nil => intro st; simp [processTrace]
  | cons it rest ih =>
    intro st
    cases it with
    | ev e =>
      simp only [List.cons_append, processTrace]
      exact ih _
    | tick t =>
      simp only [List.cons_append, processTrace]
      simp only [List.append_eq]
      rw [ih]
      simp

/-- Counterexample for C3: a startup scan containing the duplicate-domain
containers makes `monitor_containers` itself return the error — the trace
(an event and a tick that would have fired a pass) is never processed, so
the event-listener and debounce loops do not keep running after a
fatal-to-pass error in the startup pass. -/
theorem C3_counterexample :
    monitor_containers extractDup ["idA".data, "idB".data] sysFix
      [.ev ⟨0, "idA".data, DockerAction.stop⟩, .tick 10] =
      .error "Duplicate domain name in container b".data := by
  decide

/-- Claim C3 (amended): a fatal-to-pass error in a debounce-triggered
pass aborts only that pass — trace processing never halts, later items
are processed whatever earlier pass results were — but a fatal-to-pass
error in the unconditional startup pass propagates out of
`monitor_containers` and terminates the engine instead of awaiting the
next trigger. -/
theorem C3_pass_error_containment (extract : List Char → Option ContainerInfo)
    (scanIds : List (List Char)) (st0 : SysState) (trace : List TraceItem) :
    (∀ e, (update_configuration ((buildScan extract scanIds).map (·.2)) st0).2 = some e →
      monitor_containers extract scanIds st0 trace = .error e) ∧
    ((update_configuration ((buildScan extract scanIds).map (·.2)) st0).2 = none →
      monitor_containers extract scanIds st0 trace =
        .ok (processTrace extract
          ⟨buildScan extract scanIds, buildScan extract scanIds, ⟨none, false⟩,
            (update_configuration ((buildScan extract scanIds).map (·.2)) st0).1⟩ trace)) ∧
    (∀ (st : EngineState) (t1 t2 : List TraceItem),
      processTrace extract st (t1 ++ t2) =
        ((processTrace extract (processTrace extract st t1).1 t2).1,
         (processTrace extract st t1).2 ++
           (processTrace extract (processTrace extract st t1).1 t2).2)) := by
  refine ⟨?_, ?_, fun st t1 t2 => processTrace_append extract t1 t2 st⟩
  · intro e he
    simp [monitor_containers, he]
  · intro hok
    simp [monitor_containers, hok]

/-- Witness for C3: the startup duplicate terminates the engine at a
concrete input, and a successful startup hands control to the trace
loops. -/
theorem C3_pass_error_containment_witness :
    monitor_containers extractDup ["idA".data, "idB".data] sysFix [.tick 10] =
      .error "Duplicate domain name in container b".data ∧
    monitor_containers extractFix ["1".data] sysFix [.tick 10] =
      .ok (processTrace extractFix
        ⟨buildScan extractFix ["1".data], buildScan extractFix ["1".data], ⟨none, false⟩,
          (update_configuration ((buildScan extractFix ["1".data]).map (·.2)) sysFix).1⟩
        [.tick 10]) :=
  ⟨(C3_pass_error_containment extractDup ["idA".data, "idB".data] sysFix [.tick 10]).1
      "Duplicate domain name in container b".data (by decide),
   (C3_pass_error_containment extractFix ["1".data] sysFix [.tick 10]).2.1 (by decide)⟩

/-! ## Claim C2: lemmas for the debounce state machine -/

theorem eventsOf_nil : eventsOf [] = [] := rfl

theorem eventsOf_cons_ev (e : TimedEvent) (r : List TraceItem) :
    eventsOf (.ev e :: r) = e :: eventsOf r := by
  simp [eventsOf]

theorem eventsOf_cons_tick (t : Nat) (r : List TraceItem) :
    eventsOf (.tick t :: r) = eventsOf r := by
  simp [eventsOf]

theorem lastIsEvent_cons {x : TraceItem} {r : List TraceItem} (h : r ≠ []) :
    lastIsEvent (x :: r) = lastIsEvent r := by
  cases r with
  | nil => exact absurd rfl h
  | cons y r' =>
    unfold lastIsEvent
    rw [List.getLast?_cons_cons]

theorem lastIsEvent_events_ne : ∀ (tr : List TraceItem),
    lastIsEvent tr = true → eventsOf tr ≠ [] := by
  intro tr
  induction tr with
  | nil => intro h; simp [lastIsEvent] at h
  | cons x r ih =>
    intro h
    cases hr : r with
    | nil =>
      subst hr
      cases x with
      | ev e => rw [eventsOf_cons_ev]; simp
      | tick t => simp [lastIsEvent, List.getLast?] at h
    | cons y r' =>
      subst hr
      rw [lastIsEvent_cons (by simp)] at h
      have := ih h
      cases x with
      | ev e => rw [eventsOf_cons_ev]; simp
      | tick t => rw [eventsOf_cons_tick]; exact this

theorem lookup_append_single {m : ActiveMap} {k k' : List Char} {v : ContainerInfo}
    (h : m.lookup k' = none) (hne : k' ≠ k) :
    (m ++ [(k, v)]).lookup k' = none := by
  induction m with
  | nil =>
    simp only [List.nil_append, List.lookup]
    have hb : (k' == k) = false := by
      simp only [beq_eq_false_iff_ne, ne_eq]
      exact hne
    rw [hb]
  | cons p m' ih =>
    obtain ⟨a, b⟩ := p
    simp only [List.cons_append, List.lookup] at h ⊢
    cases hab : (k' == a) with
    | true => rw [hab] at h; simp at h
    | false => rw [hab] at h; exact ih h

theorem idle_phase (extract : List Char → Option ContainerInfo) :
    ∀ (post : List TraceItem) (st : EngineState),
    eventsOf post = [] → st.deb.pending_update = false →
    processTrace extract st post = (st, []) := by
  intro post
  induction post with
  | nil => intro st _ _; rfl
  | cons it rest ih =>
    intro st hev hp
    cases it with
    | ev e => rw [eventsOf_cons_ev] at hev; simp at hev
    | tick u =>
      rw [eventsOf_cons_tick] at hev
      have hstep : handle_tick st u = (st, none) := by
        unfold handle_tick
        simp [hp]
      simp only [processTrace, hstep]
      rw [ih st hev hp]
      simp

theorem silence_phase (extract : List Char → Option ContainerInfo) :
    ∀ (post : List TraceItem) (st : EngineState) (L : Nat),
    eventsOf post = [] →
    st.deb = ⟨some L, true⟩ →
    (∃ u, TraceItem.tick u ∈ post ∧ L + 5 ≤ u) →
    ∃ u err, L + 5 ≤ u ∧
      (processTrace extract st post).2 = [⟨u, st.shared, err⟩] := by
  intro post
  induction post with
  | nil =>
    intro st L _ _ hex
    obtain ⟨u, hu, _⟩ := hex
    simp at hu
  | cons it rest ih =>
    intro st L hev hdeb hex
    cases it with
    | ev e => rw [eventsOf_cons_ev] at hev; simp at hev
    | tick u =>
      rw [eventsOf_cons_tick] at hev
      by_cases hfire : 5 ≤ u - L
      · have hstep : handle_tick st u =
            ({ st with deb := ⟨none, false⟩, sys := (update_configuration (st.shared.map (·.2)) st.sys).1 }, some ⟨u, st.shared, (update_configuration (st.shared.map (·.2)) st.sys).2⟩) := by
          unfold handle_tick
          rw [hdeb]
          simp [hfire]
        have hidle := idle_phase extract rest
          { st with deb := ⟨none, false⟩, sys := (update_configuration (st.shared.map (·.2)) st.sys).1 }
          hev rfl
        refine ⟨u, (update_configuration (st.shared.map (·.2)) st.sys).2, by omega, ?_⟩
        simp only [processTrace, hstep, hidle]
        simp
      · have hstep : handle_tick st u = (st, none) := by
          unfold handle_tick
          rw [hdeb]
          simp [hfire]
        obtain ⟨u', hu', hge⟩ := hex
        have hmem : TraceItem.tick u' ∈ rest := by
          rcases List.mem_cons.mp hu' with h | h
          · exfalso
            have : u' = u := by injection h
            omega
          · exact h
        obtain ⟨u2, err, h1, h2⟩ := ih st L hev hdeb ⟨u', hmem, hge⟩
        refine ⟨u2, err, h1, ?_⟩
        simp only [processTrace, hstep]
        simpa using h2

theorem burst_phase (extract : List Char → Option ContainerInfo) (tN : Nat) :
    ∀ (pre : List TraceItem) (bs : List (TimedEvent × ContainerInfo)) (st : EngineState),
    bs ≠ [] →
    eventsOf pre = bs.map (·.1) →
    lastIsEvent pre = true →
    (∀ p ∈ bs, p.1.action = DockerAction.start) →
    (∀ p ∈ bs, extract p.1.id = some p.2) →
    (∀ p ∈ bs, st.active.lookup p.1.id = none) →
    ((bs.map fun p => p.1.id)).Nodup →
    pre.all (tickLEB tN) = true →
    (∀ p ∈ bs, tN < p.1.time + 5) →
    ((bs.map fun p => p.1.time)).getLast? = some tN →
    (st.deb.pending_update = true →
      ∃ L, st.deb.last_update_request = some L ∧ pre.all (tickLTB (L + 5)) = true) →
    processTrace extract st pre =
      (⟨st.active ++ entriesOf bs, st.active ++ entriesOf bs, ⟨some tN, true⟩, st.sys⟩, []) := by
  intro pre
  induction pre with
  | nil =>
    intro bs st hbs hev _ _ _ _ _ _ _ _ _
    rw [eventsOf_nil] at hev
    exact absurd (List.map_eq_nil_iff.mp hev.symm) hbs
  | cons it rest ih =>
    intro bs st hbs hev hlast hact hext hfresh hnodup htick hwin htlast hpend
    cases it with
    | tick u =>
      have hrne : rest ≠ [] := by
        intro h
        subst h
        simp [lastIsEvent, List.getLast?] at hlast
      rw [eventsOf_cons_tick] at hev
      have hlast' : lastIsEvent rest = true := by
        rw [← lastIsEvent_cons hrne]
        exact hlast
      rw [List.all_cons] at htick
      have hnofire : handle_tick st u = (st, none) := by
        cases hp : st.deb.pending_update with
        | false =>
          unfold handle_tick
          simp [hp]
        | true =>
          obtain ⟨L, hL, hallLT⟩ := hpend hp
          rw [List.all_cons] at hallLT
          have hu : u < L + 5 := by
            have := (Bool.and_eq_true _ _).mp hallLT |>.1
            simpa [tickLTB] using this
          unfold handle_tick
          simp [hp, hL]
          omega
      have hred : processTrace extract st (.tick u :: rest) = processTrace extract st rest := by
        simp only [processTrace, hnofire]
        simp
      rw [hred]
      refine ih bs st hbs hev hlast' hact hext hfresh hnodup
        ((Bool.and_eq_true _ _).mp htick).2 hwin htlast ?_
      intro hp
      obtain ⟨L, hL, hallLT⟩ := hpend hp
      rw [List.all_cons] at hallLT
      exact ⟨L, hL, ((Bool.and_eq_true _ _).mp hallLT).2⟩
    | ev e =>
      rw [eventsOf_cons_ev] at hev
      cases bs with
      | nil => exact absurd rfl hbs
      | cons b bs' =>
        rw [List.map_cons] at hev
        have he1 : e = b.1 := (List.cons.inj hev).1
        have he2 : eventsOf rest = bs'.map (·.1) := (List.cons.inj hev).2
        subst he1
        have hbmem : b ∈ b :: bs' := List.mem_cons_self _ _
        have ha := hact b hbmem
        have hx := hext b hbmem
        have hf := hfresh b hbmem
        have hstep : handle_event extract st b.1 =
            ⟨⟨st.active ++ [(b.1.id, b.2)], st.active ++ [(b.1.id, b.2)],
              ⟨some b.1.time, true⟩, st.sys⟩, true, true⟩ := by
          unfold handle_event
          rw [ha]
          simp only [mapContains, hf, Option.isSome_none, Bool.false_eq_true, if_false, hx,
            mapInsert]
        have hproc : processTrace extract st (.ev b.1 :: rest) =
            processTrace extract
              ⟨st.active ++ [(b.1.id, b.2)], st.active ++ [(b.1.id, b.2)],
                ⟨some b.1.time, true⟩, st.sys⟩ rest := by
          simp only [processTrace, hstep]
        rw [hproc]
        rw [List.all_cons] at htick
        cases bs' with
        | nil =>
          have hrest : rest = [] := by
            by_contra hne
            have : lastIsEvent rest = true := by
              rw [← lastIsEvent_cons hne]
              exact hlast
            exact lastIsEvent_events_ne rest this (by simpa using he2)
          subst hrest
          have htn : b.1.time = tN := by
            simpa using htlast
          subst htn
          simp [processTrace, entriesOf]
        | cons b2 bs'' =>
          have hrne : rest ≠ [] := by
            intro h
            subst h
            simp [eventsOf] at he2
          have hlast' : lastIsEvent rest = true := by
            rw [← lastIsEvent_cons hrne]
            exact hlast
          have hres := ih (b2 :: bs'')
            ⟨st.active ++ [(b.1.id, b.2)], st.active ++ [(b.1.id, b.2)],
              ⟨some b.1.time, true⟩, st.sys⟩
            (by simp) he2 hlast'
            (fun p hp => hact p (List.mem_cons_of_mem b hp))
            (fun p hp => hext p (List.mem_cons_of_mem b hp))
            ?_ ?_ ((Bool.and_eq_true _ _).mp htick).2
            (fun p hp => hwin p (List.mem_cons_of_mem b hp)) ?_ ?_
          · rw [hres]
            simp [entriesOf, List.append_assoc]
          · intro p hp
            refine lookup_append_single (hfresh p (List.mem_cons_of_mem b hp)) ?_
            intro heq
            have hh : b.1.id ∉ (b2 :: bs'').map (fun p => p.1.id) :=
              (List.nodup_cons.mp hnodup).1
            exact hh (heq ▸ List.mem_map_of_mem _ hp)
          · exact (List.nodup_cons.mp hnodup).2
          · simp only [List.map_cons] at htlast ⊢
            rw [List.getLast?_cons_cons] at htlast
            exact htlast
          · intro _
            refine ⟨b.1.time, rfl, ?_⟩
            rw [List.all_eq_true]
            intro item hitem
            cases item with
            | ev e2 => simp [tickLTB]
            | tick t =>
              have hle : t ≤ tN := by
                have := List.all_eq_true.mp ((Bool.and_eq_true _ _).mp htick).2 _ hitem
                simpa [tickLEB] using this
              have := hwin b hbmem
              simp [tickLTB]
              omega

/-- Claim C2: a burst of start events for distinct untracked containers,
all within one debounce window (every event within 5 seconds of the final
one, so no interleaved 1-second tick fires early), followed by silence,
produces no pass during the burst — each event only records the request
time and the pending flag — and exactly one reconciliation pass at some
tick at or after `tN + 5`, whose snapshot is the initial map extended
with all N extracted containers. -/
theorem C2_burst_coalesces_to_one_pass (extract : List Char → Option ContainerInfo)
    (bs : List (TimedEvent × ContainerInfo)) (tN : Nat) (pre post : List TraceItem)
    (A0 : ActiveMap) (sys0 : SysState)
    (hbs : bs ≠ [])
    (hev : eventsOf pre = bs.map (·.1))
    (hlast : lastIsEvent pre = true)
    (hact : ∀ p ∈ bs, p.1.action = DockerAction.start)
    (hext : ∀ p ∈ bs, extract p.1.id = some p.2)
    (hfresh : ∀ p ∈ bs, A0.lookup p.1.id = none)
    (hnodup : ((bs.map fun p => p.1.id)).Nodup)
    (htick : pre.all (tickLEB tN) = true)
    (hwin : ∀ p ∈ bs, tN < p.1.time + 5)
    (htlast : ((bs.map fun p => p.1.time)).getLast? = some tN)
    (hpostev : eventsOf post = [])
    (hposttick : ∃ u, TraceItem.tick u ∈ post ∧ tN + 5 ≤ u) :
    (processTrace extract ⟨A0, A0, ⟨none, false⟩, sys0⟩ pre).2 = [] ∧
    ∃ u err, tN + 5 ≤ u ∧
      (processTrace extract ⟨A0, A0, ⟨none, false⟩, sys0⟩ (pre ++ post)).2 =
        [⟨u, A0 ++ entriesOf bs, err⟩] := by
  have hburst := burst_phase extract tN pre bs ⟨A0, A0, ⟨none, false⟩, sys0⟩ hbs hev hlast
    hact hext hfresh hnodup htick hwin htlast (by intro h; simp at h)
  refine ⟨by rw [hburst], ?_⟩
  obtain ⟨u, err, h1, h2⟩ := silence_phase extract post
    ⟨A0 ++ entriesOf bs, A0 ++ entriesOf bs, ⟨some tN, true⟩, sys0⟩ tN hpostev rfl hposttick
  refine ⟨u, err, h1, ?_⟩
  rw [processTrace_append extract pre post]
  rw [hburst]
  simpa using h2

/-- Witness for C2 at the concrete two-event burst and tick trail: events
at times 0 and 2, the single pass fired at the first tick past time 7. -/
theorem C2_burst_coalesces_to_one_pass_witness :
    (processTrace extractFix ⟨[], [], ⟨none, false⟩, sysFix⟩ burstPre).2 = [] ∧
    ∃ u err, 2 + 5 ≤ u ∧
      (processTrace extractFix ⟨[], [], ⟨none, false⟩, sysFix⟩ (burstPre ++ burstPost)).2 =
        [⟨u, [] ++ entriesOf [(burstEv1, runB), (burstEv2, runA)], err⟩] :=
  C2_burst_coalesces_to_one_pass extractFix [(burstEv1, runB), (burstEv2, runA)] 2
    burstPre burstPost [] sysFix (by decide) (by decide) (by decide) (by decide)
    (by decide) (by decide) (by decide) (by decide) (by decide) (by decide) (by decide)
    ⟨7, by decide, by decide⟩

/-! ## Claim C7: lemmas on trimming, splitting and numeric parsing -/

theorem isWs_false_of_isDigit {c : Char} (h : c.isDigit = true) : isWs c = false := by
  cases hw : isWs c with
  | false => rfl
  | true =>
    exfalso
    simp only [isWs, Bool.or_eq_true, decide_eq_true_eq] at hw
    rcases hw with ((((h1 | h1) | h1) | h1) | h1) | h1 <;>
      (subst h1; exact absurd h (by decide))

theorem dropWhile_ws_append {w l : List Char} (hw : ∀ c ∈ w, isWs c = true) :
    (w ++ l).dropWhile isWs = l.dropWhile isWs := by
  induction w with
  | nil => simp
  | cons c t ih =>
    have hc := hw c (by simp)
    simp only [List.cons_append, List.dropWhile_cons, hc, if_true]
    exact ih fun d hd => hw d (List.mem_cons_of_mem _ hd)

theorem dropWhile_ws_head {l : List Char} {c : Char} (h : isWs c = false) :
    (c :: l).dropWhile isWs = c :: l := by
  simp [List.dropWhile_cons, h]

theorem trim_pad (w1 w2 mid : List Char) (c0 c1 : Char)
    (h1 : ∀ c ∈ w1, isWs c = true) (h2 : ∀ c ∈ w2, isWs c = true)
    (hh : mid.head? = some c0) (hc0 : isWs c0 = false)
    (hl : mid.getLast? = some c1) (hc1 : isWs c1 = false) :
    trim (w1 ++ mid ++ w2) = mid := by
  have hmid : mid = c0 :: mid.tail := by
    cases mid with
    | nil => simp at hh
    | cons x xs =>
      simp only [List.head?_cons, Option.some.injEq] at hh
      rw [← hh]
      rfl
  have hfront : (w1 ++ mid ++ w2).dropWhile isWs = mid ++ w2 := by
    rw [List.append_assoc]
    rw [dropWhile_ws_append h1]
    rw [hmid, List.cons_append]
    exact dropWhile_ws_head hc0
  have hrev : mid.reverse = c1 :: mid.reverse.tail := by
    cases hmr : mid.reverse with
    | nil =>
      rw [List.reverse_eq_nil_iff] at hmr
      subst hmr
      simp at hh
    | cons y ys =>
      have : mid.reverse.head? = some c1 := by rw [List.head?_reverse]; exact hl
      rw [hmr] at this
      simp only [List.head?_cons, Option.some.injEq] at this
      rw [← this]
      rfl
  have hback : (mid ++ w2).reverse.dropWhile isWs = mid.reverse := by
    rw [List.reverse_append]
    rw [dropWhile_ws_append (fun c hc => h2 c (List.mem_reverse.mp hc))]
    rw [hrev]
    exact dropWhile_ws_head hc1
  unfold trim
  rw [hfront, hback, List.reverse_reverse]

theorem trim_digits_pad (w1 w2 cs : List Char)
    (h1 : ∀ c ∈ w1, isWs c = true) (h2 : ∀ c ∈ w2, isWs c = true)
    (hcs : ∀ c ∈ cs, c.isDigit = true) (hne : cs ≠ []) :
    trim (w1 ++ cs ++ w2) = cs := by
  obtain ⟨c0, t0, rfl⟩ := List.exists_cons_of_ne_nil hne
  refine trim_pad w1 w2 (c0 :: t0) c0 ((c0 :: t0).getLast (by simp)) h1 h2 rfl
    (isWs_false_of_isDigit (hcs c0 (by simp))) (List.getLast?_eq_getLast _ _) ?_
  exact isWs_false_of_isDigit (hcs _ (List.getLast_mem _))

theorem trim_digits (cs : List Char) (hcs : ∀ c ∈ cs, c.isDigit = true) (hne : cs ≠ []) :
    trim cs = cs := by
  have := trim_digits_pad [] [] cs (by simp) (by simp) hcs hne
  simpa using this

theorem decValAux_digits : ∀ (cs : List Char) (acc : Nat),
    (∀ c ∈ cs, c.isDigit = true) →
    decValAux cs acc = some (cs.foldl (fun a c => a * 10 + (c.toNat - 48)) acc) := by
  intro cs
  induction cs with
  | nil => intro acc _; rfl
  | cons c t ih =>
    intro acc h
    have hc := h c (by simp)
    simp only [decValAux, hc, if_true, List.foldl_cons]
    exact ih _ fun d hd => h d (List.mem_cons_of_mem _ hd)

theorem rustParseU16_digits {cs : List Char} (hne : cs ≠ [])
    (hd : ∀ c ∈ cs, c.isDigit = true) :
    rustParseU16 cs = if decVal cs ≤ 65535 then some (decVal cs) else none := by
  obtain ⟨c, t, rfl⟩ := List.exists_cons_of_ne_nil hne
  have hc : c.isDigit = true := hd c (by simp)
  have hplus : c ≠ '+' := fun h => absurd (h ▸ hc) (by decide)
  have hbody : stripPlus (c :: t) = c :: t := by
    unfold stripPlus
    split
    · rename_i t2 heq
      exact absurd (List.cons.inj heq).1 hplus
    · rfl
  unfold rustParseU16
  rw [hbody]
  rw [if_neg (by simp)]
  rw [decValAux_digits _ _ hd]
  rfl

theorem validate_port_ok {tok : List Char} {n : Nat}
    (hp : rustParseU16 (trim tok) = some n) (hge : 1 ≤ n) :
    validate_port tok = .ok n := by
  unfold validate_port
  rw [hp]
  show (if n < 1 then
      Except.error ("Port number out of range (1-65535): ".data ++ (Nat.repr n).data)
    else Except.ok n) = Except.ok n
  rw [if_neg (by omega)]

theorem validate_port_err_none {tok : List Char} (hp : rustParseU16 (trim tok) = none) :
    validate_port tok = .error ("Invalid port number: ".data ++ tok) := by
  unfold validate_port
  rw [hp]

theorem validate_port_err_zero {tok : List Char} (hp : rustParseU16 (trim tok) = some 0) :
    validate_port tok = .error "Port number out of range (1-65535): 0".data := by
  unfold validate_port
  rw [hp]
  show (if (0 : Nat) < 1 then
      Except.error ("Port number out of range (1-65535): ".data ++ (Nat.repr 0).data)
    else Except.ok 0) = Except.error "Port number out of range (1-65535): 0".data
  rw [if_pos (by omega)]
  decide

theorem validate_port_err_of_invalid {tok : List Char} (h : validPortTok tok = false) :
    ∃ m, validate_port tok = .error m ∧ portErrMsgFor tok m := by
  unfold validPortTok at h
  cases hp : rustParseU16 (trim tok) with
  | none => exact ⟨_, validate_port_err_none hp, Or.inl rfl⟩
  | some n =>
    rw [hp] at h
    have hz : ¬ 1 ≤ n := by simpa using h
    have hn : n = 0 := by omega
    subst hn
    exact ⟨_, validate_port_err_zero hp, Or.inr rfl⟩

theorem validate_port_ok_of_valid {tok : List Char} (h : validPortTok tok = true) :
    ∃ n, validate_port tok = .ok n ∧ 1 ≤ n := by
  unfold validPortTok at h
  cases hp : rustParseU16 (trim tok) with
  | none => rw [hp] at h; simp at h
  | some n =>
    rw [hp] at h
    have hge : 1 ≤ n := by simpa using h
    exact ⟨n, validate_port_ok hp hge, hge⟩

theorem splitChar_not_mem {sep : Char} : ∀ {l : List Char}, sep ∉ l →
    splitChar sep l = [l] := by
  intro l
  induction l with
  | nil => intro _; rfl
  | cons c t ih =>
    intro h
    have hcs : c ≠ sep := fun he => h (he ▸ List.mem_cons_self c t)
    simp only [splitChar]
    rw [if_neg hcs]
    rw [ih fun hm => h (List.mem_cons_of_mem _ hm)]

theorem splitChar_append_sep {sep : Char} : ∀ {a : List Char} (b : List Char), sep ∉ a →
    splitChar sep (a ++ sep :: b) = a :: splitChar sep b := by
  intro a
  induction a with
  | nil =>
    intro b _
    show splitChar sep (sep :: b) = [] :: splitChar sep b
    simp [splitChar]
  | cons c t ih =>
    intro b h
    have hcs : c ≠ sep := fun he => h (he ▸ List.mem_cons_self c t)
    simp only [List.cons_append, splitChar]
    rw [if_neg hcs]
    simp only [List.append_eq]
    rw [ih b fun hm => h (List.mem_cons_of_mem _ hm)]

theorem colon_not_mem_digits {cs : List Char} (hcs : ∀ c ∈ cs, c.isDigit = true) :
    ':' ∉ cs := fun h => absurd (hcs ':' h) (by decide)

theorem colon_not_mem_ws {w : List Char} (hw : ∀ c ∈ w, isWs c = true) :
    ':' ∉ w := fun h => absurd (hw ':' h) (by decide)

theorem headNotWs_spec {l : List Char} (h : headNotWs l = true) :
    ∃ c t, l = c :: t ∧ isWs c = false := by
  unfold headNotWs at h
  cases l with
  | nil => simp at h
  | cons c t =>
    refine ⟨c, t, rfl, ?_⟩
    simp only [List.head?_cons] at h
    simpa using h

theorem lastNotWs_spec {l : List Char} (h : lastNotWs l = true) :
    ∃ c, l.getLast? = some c ∧ isWs c = false := by
  unfold lastNotWs at h
  cases hg : l.getLast? with
  | none => rw [hg] at h; simp at h
  | some c =>
    rw [hg] at h
    exact ⟨c, rfl, by simpa using h⟩

theorem parse_single_tok {w1 w2 mid : List Char}
    (h1 : ∀ c ∈ w1, isWs c = true) (h2 : ∀ c ∈ w2, isWs c = true)
    (c0 c1 : Char) (hh : mid.head? = some c0) (hc0 : isWs c0 = false)
    (hl : mid.getLast? = some c1) (hc1 : isWs c1 = false)
    (hcolon : ':' ∉ mid) :
    parse_port_mapping (w1 ++ mid ++ w2) =
      match validate_port mid with
      | .ok port => .ok ⟨port, port⟩
      | .error e => .error e := by
  have htrim := trim_pad w1 w2 mid c0 c1 h1 h2 hh hc0 hl hc1
  have hne : mid ≠ [] := by intro h; subst h; simp at hh
  have hcf : mid.contains ':' = false := by
    rw [Bool.eq_false_iff]
    intro hc
    exact hcolon (List.elem_iff.mp hc)
  simp only [parse_port_mapping]
  rw [htrim, if_neg hne, hcf]
  simp only [Bool.false_eq_true, if_false]

theorem parse_colon_tok {w1 w2 a b : List Char}
    (h1 : ∀ c ∈ w1, isWs c = true) (h2 : ∀ c ∈ w2, isWs c = true)
    (c0 c1 : Char) (hh : (a ++ ':' :: b).head? = some c0) (hc0 : isWs c0 = false)
    (hl : (a ++ ':' :: b).getLast? = some c1) (hc1 : isWs c1 = false)
    (ha : ':' ∉ a) (hb : ':' ∉ b) :
    parse_port_mapping (w1 ++ (a ++ ':' :: b) ++ w2) =
      match validate_port a with
      | .error e => .error e
      | .ok e1 =>
        match validate_port b with
        | .error e => .error e
        | .ok i1 => .ok ⟨e1, i1⟩ := by
  have htrim := trim_pad w1 w2 (a ++ ':' :: b) c0 c1 h1 h2 hh hc0 hl hc1
  have hne : a ++ ':' :: b ≠ [] := by simp
  have hct : (a ++ ':' :: b).contains ':' = true :=
    List.elem_iff.mpr (List.mem_append.mpr (Or.inr (List.mem_cons_self _ _)))
  have hsplit : splitChar ':' (a ++ ':' :: b) = [a, b] := by
    rw [splitChar_append_sep b ha, splitChar_not_mem hb]
  simp only [parse_port_mapping]
  rw [htrim, if_neg hne, hct]
  rw [if_pos rfl]
  rw [hsplit]

/-- Claim C7: single-token parsing is as specified — with whitespace
around the token and around `:` trimmed, every all-digit token `N` in
[1, 65535] parses to `external = internal = N`; every `E:I` pair of such
tokens parses to exactly `(E, I)`; and whenever a component fails to
parse as a `u16` (non-numeric, or above 65535, which overflows), or
parses to the out-of-range value 0, the call fails with an error carrying
the offending token (the parse error embeds the raw token; the range
error embeds the parsed value, which can only be 0). -/
theorem C7_port_token_parsing :
    (∀ w1 w2 cs : List Char, (∀ c ∈ w1, isWs c = true) → (∀ c ∈ w2, isWs c = true) →
      cs ≠ [] → (∀ c ∈ cs, c.isDigit = true) → 1 ≤ decVal cs → decVal cs ≤ 65535 →
      parse_port_mapping (w1 ++ cs ++ w2) = .ok ⟨decVal cs, decVal cs⟩) ∧
    (∀ wa wb wc wd e i : List Char,
      (∀ c ∈ wa, isWs c = true) → (∀ c ∈ wb, isWs c = true) →
      (∀ c ∈ wc, isWs c = true) → (∀ c ∈ wd, isWs c = true) →
      e ≠ [] → (∀ c ∈ e, c.isDigit = true) → i ≠ [] → (∀ c ∈ i, c.isDigit = true) →
      1 ≤ decVal e → decVal e ≤ 65535 → 1 ≤ decVal i → decVal i ≤ 65535 →
      parse_port_mapping (wa ++ ((e ++ wb) ++ ':' :: (wc ++ i)) ++ wd) =
        .ok ⟨decVal e, decVal i⟩) ∧
    (∀ w1 w2 mid : List Char, (∀ c ∈ w1, isWs c = true) → (∀ c ∈ w2, isWs c = true) →
      headNotWs mid = true → lastNotWs mid = true → ':' ∉ mid →
      validPortTok mid = false →
      ∃ m, parse_port_mapping (w1 ++ mid ++ w2) = .error m ∧ portErrMsgFor mid m) ∧
    (∀ w1 w2 a b : List Char, (∀ c ∈ w1, isWs c = true) → (∀ c ∈ w2, isWs c = true) →
      headNotWs (a ++ ':' :: b) = true → lastNotWs (a ++ ':' :: b) = true →
      ':' ∉ a → ':' ∉ b →
      (validPortTok a = false →
        ∃ m, parse_port_mapping (w1 ++ (a ++ ':' :: b) ++ w2) = .error m ∧
          portErrMsgFor a m) ∧
      (validPortTok a = true → validPortTok b = false →
        ∃ m, parse_port_mapping (w1 ++ (a ++ ':' :: b) ++ w2) = .error m ∧
          portErrMsgFor b m)) := by
  have hvdig : ∀ (w : List Char) (cs : List Char), (∀ c ∈ w, isWs c = true) →
      cs ≠ [] → (∀ c ∈ cs, c.isDigit = true) → 1 ≤ decVal cs → decVal cs ≤ 65535 →
      validate_port (cs ++ w) = .ok (decVal cs) := by
    intro w cs hw hne hcs hge hle
    have htr : trim (cs ++ w) = cs := by
      have := trim_digits_pad [] w cs (by simp) hw hcs hne
      simpa using this
    refine validate_port_ok ?_ hge
    rw [htr, rustParseU16_digits hne hcs, if_pos hle]
  have hvdig2 : ∀ (w : List Char) (cs : List Char), (∀ c ∈ w, isWs c = true) →
      cs ≠ [] → (∀ c ∈ cs, c.isDigit = true) → 1 ≤ decVal cs → decVal cs ≤ 65535 →
      validate_port (w ++ cs) = .ok (decVal cs) := by
    intro w cs hw hne hcs hge hle
    have htr : trim (w ++ cs) = cs := by
      have := trim_digits_pad w [] cs hw (by simp) hcs hne
      simpa using this
    refine validate_port_ok ?_ hge
    rw [htr, rustParseU16_digits hne hcs, if_pos hle]
  refine ⟨?_, ?_, ?_, ?_⟩
  · intro w1 w2 cs h1 h2 hne hcs hge hle
    obtain ⟨c0, t0, rfl⟩ := List.exists_cons_of_ne_nil hne
    have hps := parse_single_tok h1 h2 c0 ((c0 :: t0).getLast (by simp)) List.head?_cons
      (isWs_false_of_isDigit (hcs c0 (by simp))) (List.getLast?_eq_getLast _ _)
      (isWs_false_of_isDigit (hcs _ (List.getLast_mem _)))
      (colon_not_mem_digits hcs)
    rw [hps]
    have hv : validate_port (c0 :: t0) = .ok (decVal (c0 :: t0)) := by
      have := hvdig [] (c0 :: t0) (by simp) (by simp) hcs hge hle
      simpa using this
    rw [hv]
  · intro wa wb wc wd e i hwa hwb hwc hwd hnee hde hnei hdi hge1 hle1 hge2 hle2
    obtain ⟨e0, et, rfl⟩ := List.exists_cons_of_ne_nil hnee
    have hgi : i.getLast? = some (i.getLast hnei) := List.getLast?_eq_getLast _ _
    have hh : (((e0 :: et) ++ wb) ++ ':' :: (wc ++ i)).head? = some e0 := by
      simp
    have hgl : (((e0 :: et) ++ wb) ++ ':' :: (wc ++ i)).getLast? =
        some (i.getLast hnei) := by
      have hne2 : wc ++ i ≠ [] := by
        intro h
        exact hnei (List.append_eq_nil.mp h).2
      rw [List.getLast?_append]
      rw [show (':' :: (wc ++ i)) = [':'] ++ (wc ++ i) from rfl]
      rw [List.getLast?_append]
      rw [List.getLast?_append]
      rw [hgi]
      rfl
    have hpc := parse_colon_tok hwa hwd e0 (i.getLast hnei) hh
      (isWs_false_of_isDigit (hde e0 (by simp))) hgl
      (isWs_false_of_isDigit (hdi _ (List.getLast_mem _)))
      (by
        intro hm
        rcases List.mem_append.mp hm with hm1 | hm1
        · exact colon_not_mem_digits hde hm1
        · exact colon_not_mem_ws hwb hm1)
      (by
        intro hm
        rcases List.mem_append.mp hm with hm1 | hm1
        · exact colon_not_mem_ws hwc hm1
        · exact colon_not_mem_digits hdi hm1)
    rw [hpc]
    rw [hvdig wb (e0 :: et) hwb (by simp) hde hge1 hle1]
    rw [hvdig2 wc i hwc hnei hdi hge2 hle2]
  · intro w1 w2 mid h1 h2 hhead hlast hcolon hinv
    obtain ⟨c0, t0, hmid, hc0⟩ := headNotWs_spec hhead
    obtain ⟨c1, hg1, hc1⟩ := lastNotWs_spec hlast
    subst hmid
    have hps := parse_single_tok h1 h2 c0 c1 List.head?_cons hc0 hg1 hc1 hcolon
    obtain ⟨m, hm, hmsg⟩ := validate_port_err_of_invalid hinv
    refine ⟨m, ?_, hmsg⟩
    rw [hps, hm]
  · intro w1 w2 a b h1 h2 hhead hlast ha hb
    obtain ⟨c0, t0, hmid, hc0⟩ := headNotWs_spec hhead
    obtain ⟨c1, hg1, hc1⟩ := lastNotWs_spec hlast
    have hh : (a ++ ':' :: b).head? = some c0 := by rw [hmid]; rfl
    have hpc := parse_colon_tok h1 h2 c0 c1 hh hc0 hg1 hc1 ha hb
    constructor
    · intro hinva
      obtain ⟨m, hm, hmsg⟩ := validate_port_err_of_invalid hinva
      refine ⟨m, ?_, hmsg⟩
      rw [hpc, hm]
    · intro hvala hinvb
      obtain ⟨n, hn, _⟩ := validate_port_ok_of_valid hvala
      obtain ⟨m, hm, hmsg⟩ := validate_port_err_of_invalid hinvb
      refine ⟨m, ?_, hmsg⟩
      rw [hpc, hn, hm]

/-- Witness for C7 at concrete tokens: `" 80 "`, `"8080 : 80"`, the
non-numeric token `"x1"`, and the pair `"0:80"` with an out-of-range
external component. -/
theorem C7_port_token_parsing_witness :
    parse_port_mapping ([' '] ++ "80".data ++ [' ']) =
      .ok ⟨decVal "80".data, decVal "80".data⟩ ∧
    parse_port_mapping ([] ++ (("8080".data ++ [' ']) ++ ':' :: ([' '] ++ "80".data)) ++ []) =
      .ok ⟨decVal "8080".data, decVal "80".data⟩ ∧
    (∃ m, parse_port_mapping ([] ++ "x1".data ++ []) = .error m ∧
      portErrMsgFor "x1".data m) ∧
    (∃ m, parse_port_mapping ([] ++ ("0".data ++ ':' :: "80".data) ++ []) = .error m ∧
      portErrMsgFor "0".data m) :=
  ⟨C7_port_token_parsing.1 [' '] [' '] "80".data (by decide) (by decide) (by decide)
      (by decide) (by decide) (by decide),
   C7_port_token_parsing.2.1 [] [' '] [' '] [] "8080".data "80".data (by decide) (by decide)
      (by decide) (by decide) (by decide) (by decide) (by decide) (by decide)
      (by decide) (by decide) (by decide) (by decide),
   C7_port_token_parsing.2.2.1 [] [] "x1".data (by decide) (by decide) (by decide)
      (by decide) (by decide) (by decide),
   (C7_port_token_parsing.2.2.2 [] [] "0".data "80".data (by decide) (by decide)
      (by decide) (by decide) (by decide) (by decide)).1 (by decide)⟩

/-! ## Claim C4 -/

theorem leadNl_cons (c : Char) (t : List Char) :
    leadNl (c :: t) = if c = '\n' then leadNl t + 1 else 0 := by
  by_cases hc : c = '\n'
  · subst hc
    rw [if_pos rfl]
    rfl
  · rw [if_neg hc]
    unfold leadNl
    split
    · rename_i t2 heq
      exact absurd (List.cons.inj heq).1 hc
    · rfl

theorem leadNl_eq_zero {l : List Char} (h : l.head? ≠ some '\n') : leadNl l = 0 := by
  cases l with
  | nil => rfl
  | cons c t =>
    rw [leadNl_cons]
    refine if_neg ?_
    intro he
    exact h (by rw [List.head?_cons, he])

theorem leadNl_replicate_append (i : Nat) (l : List Char) :
    leadNl (List.replicate i '\n' ++ l) = i + leadNl l := by
  induction i with
  | zero => simp
  | succ n ih =>
    rw [List.replicate_succ, List.cons_append, leadNl_cons, if_pos rfl, ih]
    omega

theorem trailNl_append_replicate {A : List Char} (i : Nat) (hA : A.getLast? ≠ some '\n') :
    trailNl (A ++ List.replicate i '\n') = i := by
  unfold trailNl
  rw [List.reverse_append, List.reverse_replicate]
  rw [leadNl_replicate_append]
  have h0 : leadNl A.reverse = 0 :=
    leadNl_eq_zero (by rw [List.head?_reverse]; exact hA)
  omega

/-- Counterexample for C4: removing the managed block from a file where
ordinary lines surround it also consumes the newlines adjacent to the
block, merging line `a` with line `b` into `ab` — the content outside the
markers is not preserved, not even modulo blank-line normalization, and
the empty-domain update does not leave the other content unchanged. -/
theorem C4_counterexample :
    update_block_in_content c4content [] = "ab\n".data ∧
    update_block_in_content c4content [] ≠ "a\nb\n".data := by
  refine ⟨by decide, by decide⟩

/-- Claim C4 (amended): the update touches exactly the matched region —
the managed block plus the newline runs immediately adjacent to it — and
everything before and after that region is preserved up to the writer's
blank-line normalization (runs of blank lines collapse to one, trailing
blank lines are stripped, a nonempty result ends with one newline).
Concretely, for a file `A ++ \n^i ++ <block> ++ \n^j ++ B` whose first
begin marker starts the block and where `A` does not end and `B` does not
start with a newline, updating with `domains` yields the normalization of
`A ++ <new block> ++ B` (the empty new block for an empty domain list);
and a file without a managed block is only normalized when the domain
list is empty. -/
theorem C4_update_touches_only_block_region :
    (∀ (A B M : List Char) (i j : Nat) (domains : List (List Char)),
      findFrom (A ++ List.replicate i '\n' ++ block_start ++ M ++ block_end ++
          List.replicate j '\n' ++ B) block_start = some (A.length + i) →
      findFrom ((A ++ List.replicate i '\n' ++ block_start ++ M ++ block_end ++
          List.replicate j '\n' ++ B).drop
          (A.length + i + block_start.length)) block_end = some M.length →
      A.getLast? ≠ some '\n' →
      B.head? ≠ some '\n' →
      update_block_in_content (A ++ List.replicate i '\n' ++ block_start ++ M ++
          block_end ++ List.replicate j '\n' ++ B) domains =
        normalize_content
          (A ++ (if domains.isEmpty then [] else create_managed_block domains) ++ B)) ∧
    (∀ content : List Char, blockMatch content = none →
      update_block_in_content content [] = normalize_content content) := by
  constructor
  · intro A B M i j domains h1 h2 hA hB
    have hasc1 : A ++ List.replicate i '\n' ++ block_start ++ M ++ block_end ++
        List.replicate j '\n' ++ B =
        (A ++ List.replicate i '\n') ++ (block_start ++ M ++ block_end ++
          List.replicate j '\n' ++ B) := by
      simp [List.append_assoc]
    have hasc2 : A ++ List.replicate i '\n' ++ block_start ++ M ++ block_end ++
        List.replicate j '\n' ++ B =
        (A ++ List.replicate i '\n' ++ block_start ++ M ++ block_end) ++
          (List.replicate j '\n' ++ B) := by
      simp [List.append_assoc]
    have hasc3 : A ++ List.replicate i '\n' ++ block_start ++ M ++ block_end ++
        List.replicate j '\n' ++ B =
        A ++ (List.replicate i '\n' ++ block_start ++ M ++ block_end ++
          List.replicate j '\n' ++ B) := by
      simp [List.append_assoc]
    have hasc4 : A ++ List.replicate i '\n' ++ block_start ++ M ++ block_end ++
        List.replicate j '\n' ++ B =
        (A ++ List.replicate i '\n' ++ block_start ++ M ++ block_end ++
          List.replicate j '\n') ++ B := by
      simp [List.append_assoc]
    have htake1 : (A ++ List.replicate i '\n' ++ block_start ++ M ++ block_end ++
        List.replicate j '\n' ++ B).take (A.length + i) = A ++ List.replicate i '\n' := by
      rw [hasc1]
      exact List.take_left' (by simp)
    have hdrop1 : (A ++ List.replicate i '\n' ++ block_start ++ M ++ block_end ++
        List.replicate j '\n' ++ B).drop
        (A.length + i + block_start.length + M.length + block_end.length) =
        List.replicate j '\n' ++ B := by
      rw [hasc2]
      refine List.drop_left' ?_
      simp
      omega
    have htakeA : (A ++ List.replicate i '\n' ++ block_start ++ M ++ block_end ++
        List.replicate j '\n' ++ B).take A.length = A := by
      rw [hasc3]
      exact List.take_left' rfl
    have hdropB : (A ++ List.replicate i '\n' ++ block_start ++ M ++ block_end ++
        List.replicate j '\n' ++ B).drop
        (A.length + i + block_start.length + M.length + block_end.length + j) = B := by
      rw [hasc4]
      refine List.drop_left' ?_
      simp
      omega
    have hbm : blockMatch (A ++ List.replicate i '\n' ++ block_start ++ M ++ block_end ++
        List.replicate j '\n' ++ B) = some (A.length,
          A.length + i + block_start.length + M.length + block_end.length + j) := by
      simp only [blockMatch, h1, h2]
      rw [htake1, hdrop1]
      rw [trailNl_append_replicate i hA]
      rw [leadNl_replicate_append]
      rw [leadNl_eq_zero hB]
      simp only [Option.some.injEq, Prod.mk.injEq]
      constructor <;> omega
    simp only [update_block_in_content, hbm]
    rw [htakeA, hdropB]
  · intro content hnone
    simp [update_block_in_content, hnone]

/-- Witness for C4 at a concrete hosts file: a block surrounded by single
newlines between two ordinary lines, removed with an empty domain list. -/
theorem C4_update_touches_only_block_region_witness :
    update_block_in_content ("127.0.0.1 localhost".data ++ List.replicate 1 '\n' ++
        block_start ++ "\n127.0.0.1 d\n".data ++ block_end ++ List.replicate 1 '\n' ++
        "x y".data) [] =
      normalize_content ("127.0.0.1 localhost".data ++
        (if ([] : List (List Char)).isEmpty then [] else create_managed_block []) ++
        "x y".data) :=
  C4_update_touches_only_block_region.1 "127.0.0.1 localhost".data "x y".data
    "\n127.0.0.1 d\n".data 1 1 [] (by decide) (by decide) (by decide) (by decide)

end Autolocalhost
